import Mathlib

/-!
Verification of the download-manager core of the expo-download-app repository.

The development shallowly embeds the scheduling/lifecycle code:

* `DownloadQueue.ts` (class `DownloadQueue`): pending queue ordered by
  priority plus the set of admitted (active) download ids, bounded by
  `maxConcurrent`;
* the `DownloadManager` class (task registry, pause/resume/cancel,
  queue processing, progress handling, network handlers, restart
  restore).

JavaScript `Set<string>` is modelled as a duplicate-free insertion list,
`Map<string, T>` as an association list with JS `Map.set` semantics
(update in place, append new keys at the end).  JS numbers that can only
ever hold small integral counts are modelled as `Nat`; priorities and
byte counters as `Int`/`ℚ`; the progress percentage, which the code
computes by a JS floating-point division that can produce `NaN` or
`Infinity`, is modelled by the type `JSNum` below.  Asynchronous
completions of the external transfer primitive (`downloadAsync`,
`pauseAsync`) are delivered as explicit step parameters / separate step
functions, mirroring the places where the source awaits them.
-/

namespace ExpoDownload

/-- Queue entry, from `QueueItem` in `types.ts`: `{ taskId, priority, addedAt }`. -/
structure QueueItem where
  taskId : String
  priority : Int
  addedAt : Nat
deriving DecidableEq, Repr

/-- State of the `DownloadQueue` class: the pending `queue` array, the
`activeDownloads` set (modelled as a duplicate-free list) and the
`maxConcurrent` bound. -/
structure QueueState where
  queue : List QueueItem
  active : List String
  maxConcurrent : Nat
deriving DecidableEq, Repr

/-- Fresh `DownloadQueue` with the given concurrency limit (constructor). -/
def emptyQueue (maxConcurrent : Nat) : QueueState :=
  { queue := [], active := [], maxConcurrent := maxConcurrent }

/-- JS `Set.add`: insert a string into the set unless already present. -/
def insertUnique (s : List String) (a : String) : List String :=
  if a ∈ s then s else s ++ [a]

/-- JS `Array.prototype.findIndex`, returning `none` for `-1`. -/
def jsFindIndex (p : α → Bool) : List α → Option Nat
  | [] => none
  | a :: l => if p a then some 0 else (jsFindIndex p l).map (· + 1)

/-- Translation of `DownloadQueue.add` (DownloadQueue.ts lines 21-35):
build the item, find the first index whose entry has `priority <` the
new priority, splice the item in there, or push it at the end when no
such index exists. -/
def queueAdd (s : QueueState) (taskId : String) (priority : Int) (now : Nat) : QueueState :=
  let item : QueueItem := { taskId := taskId, priority := priority, addedAt := now }
  match jsFindIndex (fun q => decide (q.priority < priority)) s.queue with
  | none => { s with queue := s.queue ++ [item] }
  | some i => { s with queue := s.queue.take i ++ item :: s.queue.drop i }

/-- Translation of `DownloadQueue.remove`: filter the queue and delete
from the active set. -/
def queueRemove (s : QueueState) (taskId : String) : QueueState :=
  { s with
    queue := s.queue.filter (fun item => item.taskId ≠ taskId)
    active := s.active.erase taskId }

/-- Translation of `DownloadQueue.getNext` (lines 49-65): `null` when the
active set is at the limit or the queue is empty, otherwise shift the
front item, mark it active and return its id. -/
def getNext (s : QueueState) : Option String × QueueState :=
  if s.maxConcurrent ≤ s.active.length then (none, s)
  else
    match s.queue with
    | [] => (none, s)
    | item :: rest =>
        (some item.taskId,
          { s with queue := rest, active := insertUnique s.active item.taskId })

/-- Translation of `DownloadQueue.complete`: delete from the active set. -/
def queueComplete (s : QueueState) (taskId : String) : QueueState :=
  { s with active := s.active.erase taskId }

/-- Translation of `DownloadQueue.hasCapacity`. -/
def hasCapacity (s : QueueState) : Bool :=
  s.active.length < s.maxConcurrent

/-- Translation of `DownloadQueue.clear`. -/
def queueClear (s : QueueState) : QueueState :=
  { s with queue := [], active := [] }

/-- Translation of `DownloadQueue.getActiveCount`. -/
def getActiveCount (s : QueueState) : Nat :=
  s.active.length

/-- Queue operations named in claim C1. -/
inductive QOp where
  | add (taskId : String) (priority : Int) (now : Nat)
  | getNext
  | complete (taskId : String)
  | remove (taskId : String)
  | clear
deriving DecidableEq, Repr

/-- Interpretation of one queue operation on the queue state. -/
def applyQOp (s : QueueState) : QOp → QueueState
  | .add tid p n => queueAdd s tid p n
  | .getNext => (getNext s).2
  | .complete tid => queueComplete s tid
  | .remove tid => queueRemove s tid
  | .clear => queueClear s

/-- Interpretation of a sequence of queue operations. -/
def applyQOps (s : QueueState) (ops : List QOp) : QueueState :=
  ops.foldl applyQOp s

theorem insertUnique_length_le (s : List String) (a : String) :
    (insertUnique s a).length ≤ s.length + 1 := by
  unfold insertUnique
  split
  · exact Nat.le_succ _
  · simp

theorem queueAdd_active (s : QueueState) (tid : String) (p : Int) (n : Nat) :
    (queueAdd s tid p n).active = s.active := by
  unfold queueAdd
  split <;> rfl

theorem queueAdd_maxConcurrent (s : QueueState) (tid : String) (p : Int) (n : Nat) :
    (queueAdd s tid p n).maxConcurrent = s.maxConcurrent := by
  unfold queueAdd
  split <;> rfl

theorem applyQOp_maxConcurrent (s : QueueState) (op : QOp) :
    (applyQOp s op).maxConcurrent = s.maxConcurrent := by
  cases op with
  | add tid p n => exact queueAdd_maxConcurrent s tid p n
  | getNext =>
      simp only [applyQOp]
      unfold getNext
      split
      · rfl
      · match s.queue with
        | [] => rfl
        | item :: rest => rfl
  | complete tid => rfl
  | remove tid => rfl
  | clear => rfl

theorem applyQOp_bound (s : QueueState) (op : QOp)
    (h : s.active.length ≤ s.maxConcurrent) :
    (applyQOp s op).active.length ≤ s.maxConcurrent := by
  cases op with
  | add tid p n => rw [applyQOp, queueAdd_active]; exact h
  | getNext =>
      simp only [applyQOp]
      unfold getNext
      split
      · exact h
      · next hlt =>
          match s.queue with
          | [] => exact h
          | item :: rest =>
              simp only
              calc (insertUnique s.active item.taskId).length
                  ≤ s.active.length + 1 := insertUnique_length_le _ _
                _ ≤ s.maxConcurrent := Nat.succ_le_of_lt (Nat.lt_of_not_le hlt)
  | complete tid =>
      exact le_trans (List.length_erase_le _ _) h
  | remove tid =>
      exact le_trans (List.length_erase_le _ _) h
  | clear => exact Nat.zero_le _

theorem applyQOps_bound (ops : List QOp) (s : QueueState)
    (h : s.active.length ≤ s.maxConcurrent) :
    (applyQOps s ops).active.length ≤ s.maxConcurrent := by
  induction ops generalizing s with
  | nil => exact h
  | cons op ops ih =>
      have h1 := applyQOp_bound s op h
      rw [← applyQOp_maxConcurrent s op] at h1
      have := ih (applyQOp s op) h1
      rwa [applyQOp_maxConcurrent s op] at this

/-- Claim C1: for every sequence of queue operations starting from an
empty `DownloadQueue` constructed with limit `maxConcurrent`, the size
of the active set never exceeds `maxConcurrent`; moreover `getNext`
returns `null` (and leaves the state unchanged) whenever the active set
already has `maxConcurrent` members. -/
theorem C1_active_bounded :
    (∀ (ops : List QOp) (m : Nat),
        (applyQOps (emptyQueue m) ops).active.length ≤ m)
    ∧ (∀ s : QueueState, s.maxConcurrent ≤ s.active.length → getNext s = (none, s)) := by
  constructor
  · intro ops m
    exact applyQOps_bound ops (emptyQueue m) (Nat.zero_le _)
  · intro s hs
    unfold getNext
    simp [hs]

/-- Witness for C1: a concrete run of operations on a queue with limit 1
stays within the bound, and a concrete saturated queue rejects admission. -/
theorem C1_active_bounded_witness :
    (applyQOps (emptyQueue 1)
        [QOp.add "a" 0 0, QOp.add "b" 5 1, QOp.getNext, QOp.getNext]).active.length ≤ 1
    ∧ getNext { queue := [{ taskId := "c", priority := 0, addedAt := 2 }],
                active := ["a"], maxConcurrent := 1 }
        = (none, { queue := [{ taskId := "c", priority := 0, addedAt := 2 }],
                   active := ["a"], maxConcurrent := 1 }) :=
  ⟨C1_active_bounded.1 [QOp.add "a" 0 0, QOp.add "b" 5 1, QOp.getNext, QOp.getNext] 1,
   C1_active_bounded.2 _ (by decide)⟩

/-- List-level effect of `DownloadQueue.add`: same findIndex/splice code
as `queueAdd`, applied to the bare pending list. -/
def listInsert (item : QueueItem) (l : List QueueItem) : List QueueItem :=
  match jsFindIndex (fun q => decide (q.priority < item.priority)) l with
  | none => l ++ [item]
  | some i => l.take i ++ item :: l.drop i

theorem queueAdd_queue (s : QueueState) (tid : String) (p : Int) (n : Nat) :
    (queueAdd s tid p n).queue
      = listInsert { taskId := tid, priority := p, addedAt := n } s.queue := by
  unfold queueAdd listInsert
  cases h : jsFindIndex (fun q => decide (q.priority < p)) s.queue <;> simp [h]

/-- Recursive characterization of the findIndex/splice insertion: walk
past entries whose priority is at least the new one, insert before the
first entry with strictly smaller priority. -/
def insertOrdered (item : QueueItem) : List QueueItem → List QueueItem
  | [] => [item]
  | x :: xs =>
      if x.priority < item.priority then item :: x :: xs
      else x :: insertOrdered item xs

theorem listInsert_eq_insertOrdered (item : QueueItem) (l : List QueueItem) :
    listInsert item l = insertOrdered item l := by
  induction l with
  | nil => rfl
  | cons x xs ih =>
      unfold listInsert insertOrdered
      by_cases hx : x.priority < item.priority
      · simp [jsFindIndex, hx]
      · unfold listInsert at ih
        cases h : jsFindIndex (fun q => decide (q.priority < item.priority)) xs with
        | none =>
            rw [h] at ih
            simp [jsFindIndex, hx, h, ← ih]
        | some i =>
            rw [h] at ih
            simp [jsFindIndex, hx, h, ← ih, List.take, List.drop]

/-- Pending-queue order invariant: priorities are non-increasing from
front to back. -/
def SortedQ (l : List QueueItem) : Prop :=
  l.Pairwise (fun a b => b.priority ≤ a.priority)

theorem mem_insertOrdered {y item : QueueItem} {l : List QueueItem} :
    y ∈ insertOrdered item l ↔ y = item ∨ y ∈ l := by
  induction l with
  | nil => simp [insertOrdered]
  | cons x xs ih =>
      unfold insertOrdered
      split
      · simp [or_comm, or_assoc, or_left_comm]
      · simp [ih]
        tauto

theorem sortedQ_insertOrdered {item : QueueItem} {l : List QueueItem}
    (h : SortedQ l) : SortedQ (insertOrdered item l) := by
  induction l with
  | nil => simp [insertOrdered, SortedQ]
  | cons x xs ih =>
      rw [SortedQ, List.pairwise_cons] at h
      unfold insertOrdered
      split
      · next hx =>
          rw [SortedQ, List.pairwise_cons]
          refine ⟨?_, List.Pairwise.cons h.1 h.2⟩
          intro y hy
          rcases List.mem_cons.mp hy with rfl | hy
          · exact le_of_lt hx
          · exact le_trans (h.1 y hy) (le_of_lt hx)
      · next hx =>
          rw [SortedQ, List.pairwise_cons]
          refine ⟨?_, ih h.2⟩
          intro y hy
          rcases mem_insertOrdered.mp hy with rfl | hy
          · exact le_of_not_lt hx
          · exact h.1 y hy

theorem filter_insertOrdered {item : QueueItem} {l : List QueueItem}
    (h : SortedQ l) (p : Int) :
    (insertOrdered item l).filter (fun x => decide (x.priority = p))
      = l.filter (fun x => decide (x.priority = p))
          ++ if item.priority = p then [item] else [] := by
  induction l with
  | nil =>
      simp only [insertOrdered, List.filter_nil, List.nil_append]
      split <;> simp_all [List.filter]
  | cons x xs ih =>
      rw [SortedQ, List.pairwise_cons] at h
      unfold insertOrdered
      by_cases hx : x.priority < item.priority
      · rw [if_pos hx]
        by_cases hip : item.priority = p
        · have hnil : (x :: xs).filter (fun x => decide (x.priority = p)) = [] := by
            rw [List.filter_eq_nil_iff]
            intro a ha
            rcases List.mem_cons.mp ha with rfl | ha
            · simp only [decide_eq_true_eq]
              omega
            · have := h.1 a ha
              simp only [decide_eq_true_eq]
              omega
          rw [hnil, if_pos hip]
          simp only [List.nil_append]
          rw [List.filter_cons_of_pos (by simpa using hip), hnil]
        · rw [if_neg hip, List.append_nil,
            List.filter_cons_of_neg (by simpa using hip)]
      · rw [if_neg hx]
        by_cases hxp : x.priority = p
        · rw [List.filter_cons_of_pos (by simpa using hxp),
            List.filter_cons_of_pos (by simpa using hxp), ih h.2,
            List.cons_append]
        · rw [List.filter_cons_of_neg (by simpa using hxp),
            List.filter_cons_of_neg (by simpa using hxp), ih h.2]

theorem insertOrdered_length (item : QueueItem) (l : List QueueItem) :
    (insertOrdered item l).length = l.length + 1 := by
  induction l with
  | nil => rfl
  | cons x xs ih =>
      unfold insertOrdered
      split <;> simp [ih]

/-- Test-harness glue for C2: perform a list of `add(taskId, priority)`
calls, with `addedAt` timestamps taken from a counter. -/
def addAll (s : QueueState) (n : Nat) : List (String × Int) → QueueState
  | [] => s
  | a :: rest => addAll (queueAdd s a.1 a.2 n) (n + 1) rest

/-- Queue obtained by performing the given `add` calls on a fresh
`DownloadQueue` whose concurrency limit is large enough (the number of
calls) to never block admission. -/
def builtQueue (adds : List (String × Int)) : QueueState :=
  addAll (emptyQueue adds.length) 0 adds

/-- Repeatedly call `getNext`, collecting the returned ids, stopping at
the first `null`. -/
def drainIds : Nat → QueueState → List String
  | 0, _ => []
  | fuel + 1, s =>
      match getNext s with
      | (none, _) => []
      | (some tid, s') => tid :: drainIds fuel s'

theorem addAll_active (adds : List (String × Int)) (s : QueueState) (n : Nat) :
    (addAll s n adds).active = s.active := by
  induction adds generalizing s n with
  | nil => rfl
  | cons a rest ih => rw [addAll, ih, queueAdd_active]

theorem addAll_maxConcurrent (adds : List (String × Int)) (s : QueueState) (n : Nat) :
    (addAll s n adds).maxConcurrent = s.maxConcurrent := by
  induction adds generalizing s n with
  | nil => rfl
  | cons a rest ih => rw [addAll, ih, queueAdd_maxConcurrent]

theorem addAll_length (adds : List (String × Int)) (s : QueueState) (n : Nat) :
    (addAll s n adds).queue.length = s.queue.length + adds.length := by
  induction adds generalizing s n with
  | nil => rfl
  | cons a rest ih =>
      rw [addAll, ih, queueAdd_queue, listInsert_eq_insertOrdered, insertOrdered_length]
      simp only [List.length_cons]
      omega

theorem addAll_sorted_stable (adds : List (String × Int)) (s : QueueState) (n : Nat)
    (h : SortedQ s.queue) :
    SortedQ (addAll s n adds).queue
    ∧ ∀ p : Int,
        ((addAll s n adds).queue.filter (fun x => decide (x.priority = p))).map
            (fun x => x.taskId)
          = (s.queue.filter (fun x => decide (x.priority = p))).map (fun x => x.taskId)
              ++ (adds.filter (fun a => decide (a.2 = p))).map (fun a => a.1) := by
  induction adds generalizing s n with
  | nil => simpa using ⟨h, fun _ => rfl⟩
  | cons a rest ih =>
      have hq : (queueAdd s a.1 a.2 n).queue = insertOrdered ⟨a.1, a.2, n⟩ s.queue := by
        rw [queueAdd_queue, listInsert_eq_insertOrdered]
      have hsorted : SortedQ (queueAdd s a.1 a.2 n).queue := by
        rw [hq]; exact sortedQ_insertOrdered h
      obtain ⟨ih1, ih2⟩ := ih (queueAdd s a.1 a.2 n) (n + 1) hsorted
      simp only [addAll]
      refine ⟨ih1, fun p => ?_⟩
      rw [ih2 p, hq, filter_insertOrdered h p, List.map_append]
      by_cases hap : a.2 = p
      · rw [if_pos hap, List.filter_cons_of_pos (by simpa using hap)]
        simp
      · rw [if_neg hap, List.filter_cons_of_neg (by simpa using hap)]
        simp

theorem drain_all (fuel : Nat) (s : QueueState)
    (hfuel : s.queue.length ≤ fuel)
    (hcap : s.active.length + s.queue.length ≤ s.maxConcurrent) :
    drainIds fuel s = s.queue.map (fun x => x.taskId) := by
  induction fuel generalizing s with
  | zero =>
      have : s.queue = [] := List.length_eq_zero.mp (Nat.le_zero.mp hfuel)
      simp [drainIds, this]
  | succ fuel ih =>
      rw [drainIds]
      unfold getNext
      by_cases hful : s.maxConcurrent ≤ s.active.length
      · have : s.queue.length = 0 := by omega
        have hq : s.queue = [] := List.length_eq_zero.mp this
        simp [hful, hq]
      · rw [if_neg hful]
        match hq : s.queue with
        | [] => simp
        | item :: rest =>
            simp only [List.map_cons, List.cons.injEq, true_and]
            have h1 : rest.length ≤ fuel := by
              have := hfuel
              rw [hq] at this
              simpa using this
            have h2 : (insertUnique s.active item.taskId).length + rest.length
                ≤ s.maxConcurrent := by
              have hl := insertUnique_length_le s.active item.taskId
              rw [hq] at hcap
              simp only [List.length_cons] at hcap
              omega
            exact ih { s with queue := rest, active := insertUnique s.active item.taskId }
              h1 h2

/-- Claim C2: after any sequence of `add(taskId, priority)` calls on a
fresh queue, successive successful `getNext` calls (capacity available
throughout) return exactly the pending entries front to back; the
pending entries carry non-increasing priorities; and for every priority
level the entries appear in the original insertion order (stable FIFO). -/
theorem C2_priority_fifo (adds : List (String × Int)) :
    drainIds (builtQueue adds).queue.length (builtQueue adds)
        = (builtQueue adds).queue.map (fun x => x.taskId)
    ∧ SortedQ (builtQueue adds).queue
    ∧ ∀ p : Int,
        ((builtQueue adds).queue.filter (fun x => decide (x.priority = p))).map
            (fun x => x.taskId)
          = (adds.filter (fun a => decide (a.2 = p))).map (fun a => a.1) := by
  have hsorted := addAll_sorted_stable adds (emptyQueue adds.length) 0
    (by simp [SortedQ, emptyQueue])
  refine ⟨?_, hsorted.1, ?_⟩
  · apply drain_all
    · exact le_refl _
    · rw [builtQueue, addAll_active, addAll_maxConcurrent, addAll_length]
      simp [emptyQueue]
  · intro p
    have := hsorted.2 p
    simpa [builtQueue] using this

/-- Insertion rule exactly as claim C3 words it (first position whose
existing priority is less than OR EQUAL TO the new priority); written
only to compare against the source's rule. -/
def queueAddClaimed (s : QueueState) (taskId : String) (priority : Int) (now : Nat) :
    QueueState :=
  let item : QueueItem := { taskId := taskId, priority := priority, addedAt := now }
  match jsFindIndex (fun q => decide (q.priority ≤ priority)) s.queue with
  | none => { s with queue := s.queue ++ [item] }
  | some i => { s with queue := s.queue.take i ++ item :: s.queue.drop i }

/-- Counterexample to claim C3: with an existing entry of priority 5,
adding another entry of priority 5 appends it AFTER the existing one
(the code's strict `<` scan), whereas the claim's `≤` rule would insert
it at position 0, before the existing entry. -/
theorem C3_counterexample :
    ((queueAdd (queueAdd (emptyQueue 3) "a" 5 0) "b" 5 1).queue.map
        (fun x => x.taskId) = ["a", "b"])
    ∧ ((queueAddClaimed (queueAdd (emptyQueue 3) "a" 5 0) "b" 5 1).queue.map
        (fun x => x.taskId) = ["b", "a"])
    ∧ (["a", "b"] : List String) ≠ ["b", "a"] := by
  refine ⟨by decide, by decide, by decide⟩

/-- Claim C3 amended: the new entry is inserted at the first position,
scanning from the front, whose existing entry's priority is STRICTLY
LESS than the new entry's priority; if no such position exists it is
appended at the end.  Equivalently, the queue splits at the longest
prefix of entries with priority at least the new one. -/
theorem C3_insertion_point (s : QueueState) (tid : String) (p : Int) (n : Nat) :
    (queueAdd s tid p n).queue
      = s.queue.takeWhile (fun x => decide (p ≤ x.priority))
          ++ { taskId := tid, priority := p, addedAt := n }
            :: s.queue.dropWhile (fun x => decide (p ≤ x.priority)) := by
  rw [queueAdd_queue, listInsert_eq_insertOrdered]
  induction s.queue with
  | nil => rfl
  | cons x xs ih =>
      unfold insertOrdered
      by_cases hx : x.priority < p
      · have hb : decide (p ≤ x.priority) = false := by
          simp only [decide_eq_false_iff_not]
          omega
        rw [if_pos hx, List.takeWhile_cons, List.dropWhile_cons, hb]
        simp
      · have hb : decide (p ≤ x.priority) = true := by
          simp only [decide_eq_true_eq]
          omega
        rw [if_neg hx, List.takeWhile_cons, List.dropWhile_cons, hb]
        simp [ih]

/-! ## DownloadManager embedding -/

/-- JS number as produced by the progress computation: a finite rational,
`NaN`, or a signed infinity (the sign of zero is not modelled; no claim
depends on it). -/
inductive JSNum where
  | finite (q : ℚ)
  | nan
  | posInf
  | negInf
deriving DecidableEq, Repr

/-- JS division, including division by zero (`0/0 = NaN`, `x/0 = ±Infinity`). -/
def jsDiv : JSNum → JSNum → JSNum
  | .finite a, .finite b =>
      if b = 0 then (if a = 0 then .nan else if 0 < a then .posInf else .negInf)
      else .finite (a / b)
  | .nan, _ => .nan
  | _, .nan => .nan
  | .posInf, .posInf => .nan
  | .posInf, .negInf => .nan
  | .negInf, .posInf => .nan
  | .negInf, .negInf => .nan
  | .posInf, .finite b => if 0 ≤ b then .posInf else .negInf
  | .negInf, .finite b => if 0 ≤ b then .negInf else .posInf
  | .finite _, .posInf => .finite 0
  | .finite _, .negInf => .finite 0

/-- JS multiplication on the same carrier. -/
def jsMul : JSNum → JSNum → JSNum
  | .finite a, .finite b => .finite (a * b)
  | .nan, _ => .nan
  | _, .nan => .nan
  | .posInf, .posInf => .posInf
  | .posInf, .negInf => .negInf
  | .negInf, .posInf => .negInf
  | .negInf, .negInf => .posInf
  | .posInf, .finite b => if b = 0 then .nan else if 0 < b then .posInf else .negInf
  | .finite a, .posInf => if a = 0 then .nan else if 0 < a then .posInf else .negInf
  | .negInf, .finite b => if b = 0 then .nan else if 0 < b then .negInf else .posInf
  | .finite a, .negInf => if a = 0 then .nan else if 0 < a then .negInf else .posInf

/-- JS `Math.round`: round half toward positive infinity; `NaN` and the
infinities pass through. -/
def jsRound : JSNum → JSNum
  | .finite q => .finite ((⌊q + 1/2⌋ : ℤ) : ℚ)
  | .nan => .nan
  | .posInf => .posInf
  | .negInf => .negInf

/-- Task lifecycle states, from `DownloadStatus` in `types.ts`. -/
inductive DownloadStatus where
  | pending
  | downloading
  | paused
  | completed
  | failed
  | cancelled
deriving DecidableEq, Repr

/-- Emitted event kinds, from `DownloadEvent` in `types.ts`. -/
inductive DownloadEvent where
  | progress
  | statusChange
  | completed
  | error
  | cancelled
deriving DecidableEq, Repr

/-- Error record attached to a failed task, from `DownloadError` in
`types.ts` (the optional `retryCount` is never set by the manager and is
omitted). -/
structure DownloadError where
  code : String
  message : String
  timestamp : Nat
deriving DecidableEq, Repr

/-- Task record, from `DownloadTask` in `types.ts`.  `progress` is a JS
number (the code can drive it to `NaN`/`Infinity`, see `handleProgress`);
byte counters are JS numbers modelled as rationals. -/
structure DownloadTask where
  id : String
  url : String
  fileName : String
  filePath : String
  status : DownloadStatus
  progress : JSNum
  totalBytes : ℚ
  downloadedBytes : ℚ
  createdAt : Nat
  startedAt : Option Nat
  completedAt : Option Nat
  error : Option DownloadError
  resumeData : Option String
deriving DecidableEq, Repr

/-- State of the `DownloadManager` singleton.  `tasks` models the
`Map<string, DownloadTask>` registry as an insertion-ordered association
list; `downloads` the keys of the `Map` of in-flight
`DownloadResumable` handles (the handle itself is external). The
remaining fields log externally observable effects: admissions
(`queue.getNext` successes inside `processQueue`), storage collaborator
calls, emitted events, and whole-registry persistence calls. -/
structure ManagerState where
  tasks : List (String × DownloadTask)
  downloads : List String
  queue : QueueState
  autoRetryOnNetworkRestore : Bool
  admittedLog : List String
  deleteFileCalls : List String
  deleteMetadataCalls : List String
  saveMetadataCalls : List String
  events : List (DownloadEvent × String)
  saveTasksCount : Nat
deriving DecidableEq, Repr

/-- Fresh manager: empty registry, queue with the configured limit. -/
def initialManager (maxConcurrent : Nat) (autoRetry : Bool) : ManagerState :=
  { tasks := [], downloads := [], queue := emptyQueue maxConcurrent,
    autoRetryOnNetworkRestore := autoRetry, admittedLog := [],
    deleteFileCalls := [], deleteMetadataCalls := [], saveMetadataCalls := [],
    events := [], saveTasksCount := 0 }

/-- JS `Map.get` on the association list. -/
def lookupTask : List (String × DownloadTask) → String → Option DownloadTask
  | [], _ => none
  | (k, v) :: rest, tid => if k = tid then some v else lookupTask rest tid

/-- JS `Map.set`: update in place, append new keys at the end. -/
def setTask : List (String × DownloadTask) → String → DownloadTask →
    List (String × DownloadTask)
  | [], tid, t => [(tid, t)]
  | (k, v) :: rest, tid, t =>
      if k = tid then (tid, t) :: rest else (k, v) :: setTask rest tid t

/-- JS `Map.delete`. -/
def removeTask (ts : List (String × DownloadTask)) (tid : String) :
    List (String × DownloadTask) :=
  ts.filter (fun p => p.1 ≠ tid)

/-- Mutation of the task object fetched from the registry (`const task =
this.tasks.get(taskId)` followed by field assignments): a no-op when the
id is absent. -/
def modifyTask (s : ManagerState) (tid : String) (f : DownloadTask → DownloadTask) :
    ManagerState :=
  match lookupTask s.tasks tid with
  | none => s
  | some t => { s with tasks := setTask s.tasks tid (f t) }

/-- Translation of `DownloadManager.updateTaskStatus`: set the status and
emit a status-change event; no-op when the id is unknown. -/
def updateTaskStatus (s : ManagerState) (tid : String) (st : DownloadStatus) :
    ManagerState :=
  match lookupTask s.tasks tid with
  | none => s
  | some t =>
      { s with tasks := setTask s.tasks tid { t with status := st },
               events := s.events ++ [(.statusChange, tid)] }

/-- Translation of `DownloadManager.persistTasks`: one whole-registry
save via the storage collaborator. -/
def persistTasks (s : ManagerState) : ManagerState :=
  { s with saveTasksCount := s.saveTasksCount + 1 }

/-- Synchronous prefix of `DownloadManager.startDownload` (up to its
first `await`): when the task has a known positive size the storage
check suspends before any state change (its outcome arrives later as
`startDownloadContinue` or `handleDownloadError`); otherwise the task
becomes `downloading`, `startedAt` is recorded and the resumable handle
is registered, after which the transfer outcome arrives later as
`deliverSuccess`/`handleDownloadError`. -/
def startDownloadSync (s : ManagerState) (tid : String) (now : Nat) : ManagerState :=
  match lookupTask s.tasks tid with
  | none => s
  | some task =>
      if 0 < task.totalBytes then s
      else
        let s1 := updateTaskStatus s tid .downloading
        let s2 := modifyTask s1 tid (fun t => { t with startedAt := some now })
        { s2 with downloads := insertUnique s2.downloads tid }

/-- Translation of `DownloadManager.processQueue`: admit tasks while the
queue has capacity and `getNext` yields one, starting each.  The fuel is
an upper bound on iterations; `runQueue` supplies the pending count,
which suffices because every iteration pops one queue entry. -/
def processQueue : Nat → ManagerState → Nat → ManagerState
  | 0, s, _ => s
  | fuel + 1, s, now =>
      if hasCapacity s.queue then
        match getNext s.queue with
        | (some tid, q') =>
            processQueue fuel
              (startDownloadSync
                { s with queue := q', admittedLog := s.admittedLog ++ [tid] } tid now)
              now
        | (none, _) => s
      else s

/-- One `processQueue()` call. -/
def runQueue (s : ManagerState) (now : Nat) : ManagerState :=
  processQueue s.queue.queue.length s now

/-- ASCII lowercasing of one character, as the WHATWG URL parser applies
to the scheme. -/
def asciiLower (c : Char) : Char :=
  if 'A' ≤ c ∧ c ≤ 'Z' then Char.ofNat (c.toNat + 32) else c

/-- ASCII letter (allowed as the first character of a URL scheme). -/
def isAsciiAlpha (c : Char) : Bool :=
  ('a' ≤ c ∧ c ≤ 'z') ∨ ('A' ≤ c ∧ c ≤ 'Z')

/-- Character allowed after the first character of a URL scheme. -/
def isSchemeTail (c : Char) : Bool :=
  isAsciiAlpha c ∨ ('0' ≤ c ∧ c ≤ '9') ∨ c = '+' ∨ c = '-' ∨ c = '.'

/-- Split `scheme ":" rest`: the scheme is a leading ASCII letter
followed by letters, digits, `+`, `-` or `.`, up to a colon; it is
returned ASCII-lowercased together with the remainder after the colon.
`none` when the input has no such scheme (the URL constructor, called
without a base, throws on such input). -/
def schemeSplit (seen : Bool) : List Char → Option (List Char × List Char)
  | [] => none
  | c :: rest =>
      if c = ':' then (if seen then some ([], rest) else none)
      else if (if seen then isSchemeTail c else isAsciiAlpha c) then
        (schemeSplit true rest).map (fun p => (asciiLower c :: p.1, p.2))
      else none

/-- Skip the run of slashes after `scheme:` (the parser's
special-authority-ignore-slashes state accepts both `/` and `\`). -/
def dropSlashes : List Char → List Char
  | [] => []
  | c :: rest => if c = '/' ∨ c = '\\' then dropSlashes rest else c :: rest

/-- Suffix after the last `@` (the authority's host-and-port part; the
whole list when there is no userinfo). -/
def afterLastAt (l : List Char) : List Char :=
  (l.reverse.takeWhile (fun c => c ≠ '@')).reverse

/-- Observable behavior of the JS `new URL(url)` builtin as far as
`validateUrl` uses it: the `protocol` of the parsed URL (lowercased
scheme plus `:`), or `none` when the constructor throws.  A URL without
a `scheme:` prefix throws (no base argument is passed).  For the special
schemes http/https the parser skips slashes after the colon, takes the
authority up to `/`, `?` or `#`, and throws when the host (after the
userinfo `@`, before the port `:`) is empty — hence `http://` throws
while `HTTP://x.com` and `http:example.com` parse.  For other schemes
the remainder is an opaque path and parsing succeeds; finer parse
failures (bad IPv6 literals, invalid ports, tab/newline stripping) are
beyond what the validator's callers exercise and are not modelled. -/
def jsURLProtocol (url : String) : Option String :=
  match schemeSplit false url.data with
  | none => none
  | some (scheme, rest) =>
      if scheme = "http".data ∨ scheme = "https".data then
        let authority := (dropSlashes rest).takeWhile
          (fun c => c ≠ '/' ∧ c ≠ '?' ∧ c ≠ '#')
        let host := (afterLastAt authority).takeWhile (fun c => c ≠ ':')
        if host.isEmpty then none
        else some (String.mk scheme ++ ":")
      else some (String.mk scheme ++ ":")

/-- Translation of `validateUrl` (utils.ts, staged after the hook in
`hooks/useDownloadManager.ts`): construct a URL — false if that throws —
and test the parsed protocol against `http:`/`https:`.  The external
`new URL` builtin is modelled by `jsURLProtocol`. -/
def validateUrl (url : String) : Bool :=
  match jsURLProtocol url with
  | none => false
  | some protocol => protocol == "http:" || protocol == "https:"

/-- Download directory prefix (`DOWNLOAD_DIRECTORY` in `constants.ts`);
the platform-provided document directory is an arbitrary fixed string
here, no claim depends on its value. -/
def downloadDirectory : String := "documents/downloads/"

/-- Task record built by `DownloadManager.download`.  The generated task
id (`generateTaskId`: `Date.now()` plus `Math.random()`) and the
sanitized file name (`sanitizeFileName`, whose fallbacks also draw on
`Date.now()`) depend on external clock/entropy, so both are taken as
parameters; `now` stands for `Date.now()`. -/
def newDownloadTask (url fileName tid : String) (now : Nat) : DownloadTask :=
  { id := tid, url := url, fileName := fileName,
    filePath := downloadDirectory ++ fileName,
    status := .pending, progress := .finite 0, totalBytes := 0,
    downloadedBytes := 0, createdAt := now, startedAt := none,
    completedAt := none, error := none, resumeData := none }

/-- Translation of `DownloadManager.download`: validate, create and
register the task, save its metadata, enqueue it, process the queue. -/
def download (s : ManagerState) (url : String) (fileName : String) (priority : Int)
    (tid : String) (now : Nat) : Except String ManagerState :=
  if ¬ validateUrl url then .error "INVALID_URL: Invalid URL format"
  else
    let task := newDownloadTask url fileName tid now
    let s1 := { s with tasks := setTask s.tasks tid task,
                       saveMetadataCalls := s.saveMetadataCalls ++ [tid] }
    let s2 := { s1 with queue := queueAdd s1.queue tid priority now }
    .ok (runQueue s2 now)

/-- Translation of `DownloadManager.pause`.  `pauseResult` is the outcome
of the external `pauseAsync`: `some rd` is a successful pause carrying
resume data, `none` models `pauseAsync` throwing, in which case the
catch block only logs and the state is unchanged. -/
def pause (s : ManagerState) (tid : String) (pauseResult : Option String) (now : Nat) :
    Except String ManagerState :=
  match lookupTask s.tasks tid with
  | none => .error "Task not found"
  | some task =>
      if task.status ≠ .downloading then .ok s
      else if tid ∈ s.downloads then
        match pauseResult with
        | none => .ok s
        | some rd =>
            let s1 := modifyTask s tid (fun t => { t with resumeData := some rd })
            let s2 := updateTaskStatus s1 tid .paused
            let s3 := persistTasks s2
            let s4 := { s3 with queue := queueComplete s3.queue tid,
                                downloads := s3.downloads.erase tid }
            .ok (runQueue s4 now)
      else .ok s

/-- Translation of `DownloadManager.resume`.  `online` is the network
tracker's `isOnline()` answer. -/
def resume (s : ManagerState) (tid : String) (online : Bool) (now : Nat) :
    Except String ManagerState :=
  match lookupTask s.tasks tid with
  | none => .error "Task not found"
  | some task =>
      if task.status ≠ .paused ∧ task.status ≠ .failed then .ok s
      else if ¬ online then .error "No network connection"
      else
        let s1 := if task.status = .failed then
            modifyTask s tid (fun t => { t with error := none })
          else s
        let s2 := updateTaskStatus s1 tid .pending
        let s3 := { s2 with queue := queueAdd s2.queue tid 0 now }
        .ok (runQueue s3 now)

/-- Translation of `DownloadManager.cancel`.  `_pauseThrows` records
whether the best-effort `pauseAsync` on the in-flight handle threw; the
catch block swallows the error either way, so the parameter has no
effect on the result. -/
def cancel (s : ManagerState) (tid : String) (_pauseThrows : Bool) (now : Nat) :
    Except String ManagerState :=
  match lookupTask s.tasks tid with
  | none => .error "Task not found"
  | some task =>
      let s1 := if tid ∈ s.downloads then { s with downloads := s.downloads.erase tid }
        else s
      let s2 := { s1 with queue := queueRemove s1.queue tid }
      let s3 := { s2 with deleteFileCalls := s2.deleteFileCalls ++ [task.filePath],
                          deleteMetadataCalls := s2.deleteMetadataCalls ++ [tid] }
      let s4 := updateTaskStatus s3 tid .cancelled
      let s5 := { s4 with events := s4.events ++ [(DownloadEvent.cancelled, tid)] }
      let s6 := { s5 with tasks := removeTask s5.tasks tid }
      let s7 := persistTasks s6
      .ok (runQueue s7 now)

/-- Success branch of `startDownload` after `downloadAsync` resolves with
a result: record completion, set progress to 100, clear the resume data,
free the slot and advance the queue. -/
def deliverSuccess (s : ManagerState) (tid : String) (now : Nat) : ManagerState :=
  let s1 := modifyTask s tid (fun t =>
    { t with completedAt := some now, progress := .finite 100, resumeData := none })
  let s2 := updateTaskStatus s1 tid .completed
  let s3 := { s2 with queue := queueComplete s2.queue tid,
                      downloads := s2.downloads.erase tid,
                      events := s2.events ++ [(.completed, tid)] }
  let s4 := persistTasks s3
  runQueue s4 now

/-- Translation of `DownloadManager.handleDownloadError` (reached from
the `startDownload` catch block with code NETWORK_ERROR, or from the
storage check with code INSUFFICIENT_STORAGE). -/
def handleDownloadError (s : ManagerState) (tid : String) (code msg : String)
    (now : Nat) : ManagerState :=
  match lookupTask s.tasks tid with
  | none => s
  | some _ =>
      let s1 := modifyTask s tid (fun t =>
        { t with error := some { code := code, message := msg, timestamp := now } })
      let s2 := updateTaskStatus s1 tid .failed
      let s3 := { s2 with queue := queueComplete s2.queue tid,
                          downloads := s2.downloads.erase tid,
                          events := s2.events ++ [(.error, tid)] }
      let s4 := persistTasks s3
      runQueue s4 now

/-- Translation of `DownloadManager.handleProgress`: overwrite the byte
counters and recompute the percentage with the JS expression
`Math.round((totalBytesWritten / totalBytesExpectedToWrite) * 100)` —
note the source has no guard for a zero total. -/
def handleProgress (s : ManagerState) (tid : String) (written total : ℚ) :
    ManagerState :=
  match lookupTask s.tasks tid with
  | none => s
  | some _ =>
      let s1 := modifyTask s tid (fun t =>
        { t with totalBytes := total, downloadedBytes := written,
                 progress := jsRound (jsMul (jsDiv (.finite written) (.finite total))
                   (.finite 100)) })
      { s1 with events := s1.events ++ [(.progress, tid)] }

/-- Remainder of `startDownload` after a positive storage check for a
task with known size: becomes `downloading`, records `startedAt`,
registers the handle. -/
def startDownloadContinue (s : ManagerState) (tid : String) (now : Nat) : ManagerState :=
  let s1 := updateTaskStatus s tid .downloading
  let s2 := modifyTask s1 tid (fun t => { t with startedAt := some now })
  { s2 with downloads := insertUnique s2.downloads tid }

/-- Status rewrite applied to each persisted task on startup
(`initialize`, DownloadQueue.ts lines 193-199): a task saved as
`downloading` is reset to `paused`, every other task is kept unchanged. -/
def resetLoadedTask (t : DownloadTask) : DownloadTask :=
  if t.status = .downloading then { t with status := .paused } else t

/-- Registry produced by the `initialize` loading loop from a persisted
snapshot. -/
def loadPersistedTasks (saved : List DownloadTask) : List (String × DownloadTask) :=
  saved.foldl (fun m t => setTask m t.id (resetLoadedTask t)) []

/-- Translation of `DownloadManager.getAllTasks`. -/
def getAllTasks (s : ManagerState) : List DownloadTask :=
  s.tasks.map (fun p => p.2)

/-- Translation of `DownloadManager.getActiveDownloads`. -/
def getActiveDownloads (s : ManagerState) : List DownloadTask :=
  (getAllTasks s).filter (fun t => decide (t.status = .downloading))

/-- Tasks on which `handleNetworkOffline` (lines 540-548) invokes
`pause`: exactly `getActiveDownloads()`. -/
def offlinePauseTargets (s : ManagerState) : List DownloadTask :=
  getActiveDownloads s

/-- Tasks on which `handleNetworkOnline` (lines 521-535) invokes
`resume`: nothing unless auto-retry is configured, otherwise the failed
tasks whose recorded error code is NETWORK_ERROR. -/
def onlineResumeTargets (s : ManagerState) : List DownloadTask :=
  if s.autoRetryOnNetworkRestore = false then []
  else (getAllTasks s).filter (fun t =>
    decide (t.status = .failed ∧ t.error.map (fun e => e.code) = some "NETWORK_ERROR"))

/-! ## Registry lemmas -/

theorem lookupTask_setTask (ts : List (String × DownloadTask)) (k k' : String)
    (v : DownloadTask) :
    lookupTask (setTask ts k v) k' = if k' = k then some v else lookupTask ts k' := by
  induction ts with
  | nil =>
      by_cases h : k' = k
      · subst h; simp [setTask, lookupTask]
      · have h2 : ¬ k = k' := fun hh => h hh.symm
        simp [setTask, lookupTask, h, h2]
  | cons p rest ih =>
      obtain ⟨k0, v0⟩ := p
      by_cases h0 : k0 = k
      · subst h0
        by_cases h : k' = k0
        · subst h; simp [setTask, lookupTask]
        · have h2 : ¬ k0 = k' := fun hh => h hh.symm
          simp [setTask, lookupTask, h, h2]
      · by_cases h1 : k0 = k'
        · subst h1
          have h2 : ¬ k0 = k := h0
          simp [setTask, lookupTask, h0, h2]
        · simp [setTask, lookupTask, h0, h1, ih]

theorem lookupTask_removeTask (ts : List (String × DownloadTask)) (k k' : String) :
    lookupTask (removeTask ts k) k' = if k' = k then none else lookupTask ts k' := by
  induction ts with
  | nil =>
      simp only [removeTask, List.filter_nil, lookupTask]
      split <;> rfl
  | cons p rest ih =>
      obtain ⟨k0, v0⟩ := p
      by_cases h0 : k0 = k
      · subst h0
        have hdrop : removeTask ((k0, v0) :: rest) k0 = removeTask rest k0 := by
          simp [removeTask]
        rw [hdrop, ih]
        by_cases h : k' = k0
        · simp [h]
        · have h2 : ¬ k0 = k' := fun hh => h hh.symm
          simp [h, h2, lookupTask]
      · have hkeep : removeTask ((k0, v0) :: rest) k = (k0, v0) :: removeTask rest k := by
          simp [removeTask, h0]
        rw [hkeep]
        by_cases h1 : k0 = k'
        · subst h1
          have h2 : ¬ k0 = k := h0
          simp [lookupTask, h2]
        · simp [lookupTask, h1, ih]

theorem modifyTask_of_none {s : ManagerState} {tid : String}
    (f : DownloadTask → DownloadTask) (h : lookupTask s.tasks tid = none) :
    modifyTask s tid f = s := by
  unfold modifyTask; rw [h]

theorem modifyTask_of_some {s : ManagerState} {tid : String} {t : DownloadTask}
    (f : DownloadTask → DownloadTask) (h : lookupTask s.tasks tid = some t) :
    modifyTask s tid f = { s with tasks := setTask s.tasks tid (f t) } := by
  unfold modifyTask; rw [h]

theorem updateTaskStatus_of_none {s : ManagerState} {tid : String}
    (st : DownloadStatus) (h : lookupTask s.tasks tid = none) :
    updateTaskStatus s tid st = s := by
  unfold updateTaskStatus; rw [h]

theorem updateTaskStatus_of_some {s : ManagerState} {tid : String} {t : DownloadTask}
    (st : DownloadStatus) (h : lookupTask s.tasks tid = some t) :
    updateTaskStatus s tid st
      = { s with tasks := setTask s.tasks tid { t with status := st },
                 events := s.events ++ [(.statusChange, tid)] } := by
  unfold updateTaskStatus; rw [h]

theorem lookupTask_modifyTask (s : ManagerState) (tid : String)
    (f : DownloadTask → DownloadTask) (k : String) :
    lookupTask (modifyTask s tid f).tasks k
      = if k = tid then (lookupTask s.tasks tid).map f else lookupTask s.tasks k := by
  cases h : lookupTask s.tasks tid with
  | none =>
      rw [modifyTask_of_none f h]
      by_cases hk : k = tid
      · rw [if_pos hk, hk, h]; rfl
      · rw [if_neg hk]
  | some t =>
      rw [modifyTask_of_some f h, lookupTask_setTask]
      rfl

theorem lookupTask_updateTaskStatus (s : ManagerState) (tid : String)
    (st : DownloadStatus) (k : String) :
    lookupTask (updateTaskStatus s tid st).tasks k
      = if k = tid then (lookupTask s.tasks tid).map (fun t => { t with status := st })
        else lookupTask s.tasks k := by
  cases h : lookupTask s.tasks tid with
  | none =>
      rw [updateTaskStatus_of_none st h]
      by_cases hk : k = tid
      · rw [if_pos hk, hk, h]; rfl
      · rw [if_neg hk]
  | some t =>
      rw [updateTaskStatus_of_some st h, lookupTask_setTask]
      rfl

theorem modifyTask_queue (s : ManagerState) (tid : String)
    (f : DownloadTask → DownloadTask) :
    (modifyTask s tid f).queue = s.queue := by
  cases h : lookupTask s.tasks tid with
  | none => rw [modifyTask_of_none f h]
  | some t => rw [modifyTask_of_some f h]

theorem modifyTask_downloads (s : ManagerState) (tid : String)
    (f : DownloadTask → DownloadTask) :
    (modifyTask s tid f).downloads = s.downloads := by
  cases h : lookupTask s.tasks tid with
  | none => rw [modifyTask_of_none f h]
  | some t => rw [modifyTask_of_some f h]

theorem modifyTask_events (s : ManagerState) (tid : String)
    (f : DownloadTask → DownloadTask) :
    (modifyTask s tid f).events = s.events := by
  cases h : lookupTask s.tasks tid with
  | none => rw [modifyTask_of_none f h]
  | some t => rw [modifyTask_of_some f h]

theorem modifyTask_deleteFileCalls (s : ManagerState) (tid : String)
    (f : DownloadTask → DownloadTask) :
    (modifyTask s tid f).deleteFileCalls = s.deleteFileCalls := by
  cases h : lookupTask s.tasks tid with
  | none => rw [modifyTask_of_none f h]
  | some t => rw [modifyTask_of_some f h]

theorem modifyTask_deleteMetadataCalls (s : ManagerState) (tid : String)
    (f : DownloadTask → DownloadTask) :
    (modifyTask s tid f).deleteMetadataCalls = s.deleteMetadataCalls := by
  cases h : lookupTask s.tasks tid with
  | none => rw [modifyTask_of_none f h]
  | some t => rw [modifyTask_of_some f h]

theorem modifyTask_admittedLog (s : ManagerState) (tid : String)
    (f : DownloadTask → DownloadTask) :
    (modifyTask s tid f).admittedLog = s.admittedLog := by
  cases h : lookupTask s.tasks tid with
  | none => rw [modifyTask_of_none f h]
  | some t => rw [modifyTask_of_some f h]

theorem updateTaskStatus_queue (s : ManagerState) (tid : String) (st : DownloadStatus) :
    (updateTaskStatus s tid st).queue = s.queue := by
  cases h : lookupTask s.tasks tid with
  | none => rw [updateTaskStatus_of_none st h]
  | some t => rw [updateTaskStatus_of_some st h]

theorem updateTaskStatus_downloads (s : ManagerState) (tid : String)
    (st : DownloadStatus) :
    (updateTaskStatus s tid st).downloads = s.downloads := by
  cases h : lookupTask s.tasks tid with
  | none => rw [updateTaskStatus_of_none st h]
  | some t => rw [updateTaskStatus_of_some st h]

theorem updateTaskStatus_deleteFileCalls (s : ManagerState) (tid : String)
    (st : DownloadStatus) :
    (updateTaskStatus s tid st).deleteFileCalls = s.deleteFileCalls := by
  cases h : lookupTask s.tasks tid with
  | none => rw [updateTaskStatus_of_none st h]
  | some t => rw [updateTaskStatus_of_some st h]

theorem updateTaskStatus_deleteMetadataCalls (s : ManagerState) (tid : String)
    (st : DownloadStatus) :
    (updateTaskStatus s tid st).deleteMetadataCalls = s.deleteMetadataCalls := by
  cases h : lookupTask s.tasks tid with
  | none => rw [updateTaskStatus_of_none st h]
  | some t => rw [updateTaskStatus_of_some st h]

theorem updateTaskStatus_admittedLog (s : ManagerState) (tid : String)
    (st : DownloadStatus) :
    (updateTaskStatus s tid st).admittedLog = s.admittedLog := by
  cases h : lookupTask s.tasks tid with
  | none => rw [updateTaskStatus_of_none st h]
  | some t => rw [updateTaskStatus_of_some st h]

theorem updateTaskStatus_events_mono (s : ManagerState) (tid : String)
    (st : DownloadStatus) :
    ∃ l, (updateTaskStatus s tid st).events = s.events ++ l := by
  cases h : lookupTask s.tasks tid with
  | none => rw [updateTaskStatus_of_none st h]; exact ⟨[], by simp⟩
  | some t => rw [updateTaskStatus_of_some st h]; exact ⟨[(.statusChange, tid)], rfl⟩

/-! ## startDownloadSync and processQueue lemmas -/

theorem sds_of_none {s : ManagerState} {tid : String} (now : Nat)
    (h : lookupTask s.tasks tid = none) :
    startDownloadSync s tid now = s := by
  unfold startDownloadSync
  simp only [h]

theorem sds_of_pos {s : ManagerState} {tid : String} {task : DownloadTask} (now : Nat)
    (h : lookupTask s.tasks tid = some task) (ht : 0 < task.totalBytes) :
    startDownloadSync s tid now = s := by
  unfold startDownloadSync
  simp only [h, if_pos ht]

theorem sds_of_start {s : ManagerState} {tid : String} {task : DownloadTask} (now : Nat)
    (h : lookupTask s.tasks tid = some task) (ht : ¬ 0 < task.totalBytes) :
    startDownloadSync s tid now
      = { modifyTask (updateTaskStatus s tid .downloading) tid
            (fun t => { t with startedAt := some now }) with
          downloads := insertUnique
            (modifyTask (updateTaskStatus s tid .downloading) tid
              (fun t => { t with startedAt := some now })).downloads tid } := by
  unfold startDownloadSync
  simp only [h, if_neg ht]

theorem sds_queue (s : ManagerState) (tid : String) (now : Nat) :
    (startDownloadSync s tid now).queue = s.queue := by
  cases h : lookupTask s.tasks tid with
  | none => rw [sds_of_none now h]
  | some task =>
      by_cases ht : 0 < task.totalBytes
      · rw [sds_of_pos now h ht]
      · rw [sds_of_start now h ht]
        show (modifyTask (updateTaskStatus s tid .downloading) tid _).queue = _
        rw [modifyTask_queue, updateTaskStatus_queue]

theorem sds_deleteFileCalls (s : ManagerState) (tid : String) (now : Nat) :
    (startDownloadSync s tid now).deleteFileCalls = s.deleteFileCalls := by
  cases h : lookupTask s.tasks tid with
  | none => rw [sds_of_none now h]
  | some task =>
      by_cases ht : 0 < task.totalBytes
      · rw [sds_of_pos now h ht]
      · rw [sds_of_start now h ht]
        show (modifyTask (updateTaskStatus s tid .downloading) tid _).deleteFileCalls = _
        rw [modifyTask_deleteFileCalls, updateTaskStatus_deleteFileCalls]

theorem sds_deleteMetadataCalls (s : ManagerState) (tid : String) (now : Nat) :
    (startDownloadSync s tid now).deleteMetadataCalls = s.deleteMetadataCalls := by
  cases h : lookupTask s.tasks tid with
  | none => rw [sds_of_none now h]
  | some task =>
      by_cases ht : 0 < task.totalBytes
      · rw [sds_of_pos now h ht]
      · rw [sds_of_start now h ht]
        show (modifyTask (updateTaskStatus s tid .downloading) tid _).deleteMetadataCalls = _
        rw [modifyTask_deleteMetadataCalls, updateTaskStatus_deleteMetadataCalls]

theorem sds_events_mono (s : ManagerState) (tid : String) (now : Nat) :
    ∃ l, (startDownloadSync s tid now).events = s.events ++ l := by
  cases h : lookupTask s.tasks tid with
  | none => rw [sds_of_none now h]; exact ⟨[], by simp⟩
  | some task =>
      by_cases ht : 0 < task.totalBytes
      · rw [sds_of_pos now h ht]; exact ⟨[], by simp⟩
      · rw [sds_of_start now h ht]
        obtain ⟨l, hl⟩ := updateTaskStatus_events_mono s tid .downloading
        refine ⟨l, ?_⟩
        show (modifyTask (updateTaskStatus s tid .downloading) tid _).events = _
        rw [modifyTask_events, hl]

theorem sds_downloads_mem (s : ManagerState) (tid : String) (now : Nat) (x : String)
    (hx : x ∈ (startDownloadSync s tid now).downloads) :
    x ∈ s.downloads ∨ x = tid := by
  cases h : lookupTask s.tasks tid with
  | none => rw [sds_of_none now h] at hx; exact Or.inl hx
  | some task =>
      by_cases ht : 0 < task.totalBytes
      · rw [sds_of_pos now h ht] at hx; exact Or.inl hx
      · rw [sds_of_start now h ht] at hx
        have hx2 : x ∈ insertUnique
            (modifyTask (updateTaskStatus s tid .downloading) tid
              (fun t => { t with startedAt := some now })).downloads tid := hx
        rw [modifyTask_downloads, updateTaskStatus_downloads] at hx2
        unfold insertUnique at hx2
        split at hx2
        · exact Or.inl hx2
        · rcases List.mem_append.mp hx2 with hm | hm
          · exact Or.inl hm
          · exact Or.inr (List.mem_singleton.mp hm)

theorem sds_lookup (s : ManagerState) (tid : String) (now : Nat) (k : String) :
    lookupTask (startDownloadSync s tid now).tasks k
      = if k = tid then
          (lookupTask s.tasks tid).map (fun t =>
            if 0 < t.totalBytes then t
            else { t with status := .downloading, startedAt := some now })
        else lookupTask s.tasks k := by
  cases h : lookupTask s.tasks tid with
  | none =>
      rw [sds_of_none now h]
      by_cases hk : k = tid
      · rw [if_pos hk, hk, h]; rfl
      · rw [if_neg hk]
  | some task =>
      by_cases ht : 0 < task.totalBytes
      · rw [sds_of_pos now h ht]
        by_cases hk : k = tid
        · rw [if_pos hk, hk, h]; simp [ht]
        · rw [if_neg hk]
      · rw [sds_of_start now h ht]
        show lookupTask (modifyTask (updateTaskStatus s tid .downloading) tid
          (fun t => { t with startedAt := some now })).tasks k = _
        by_cases hk : k = tid
        · simp [lookupTask_modifyTask, lookupTask_updateTaskStatus, hk, h, ht]
        · simp [lookupTask_modifyTask, lookupTask_updateTaskStatus, hk]

theorem getNext_some {s : QueueState} {t : String} {q' : QueueState}
    (h : getNext s = (some t, q')) :
    ∃ item rest, s.queue = item :: rest ∧ t = item.taskId
      ∧ q' = { s with queue := rest, active := insertUnique s.active item.taskId } := by
  unfold getNext at h
  by_cases hc : s.maxConcurrent ≤ s.active.length
  · rw [if_pos hc] at h
    simp at h
  · rw [if_neg hc] at h
    match hq : s.queue with
    | [] =>
        rw [hq] at h
        simp at h
    | item :: rest =>
        rw [hq] at h
        rw [Prod.mk.injEq] at h
        obtain ⟨h1, h2⟩ := h
        exact ⟨item, rest, rfl, by simpa using h1.symm, h2.symm⟩

theorem mem_insertUnique {x a : String} {l : List String} :
    x ∈ insertUnique l a ↔ x ∈ l ∨ x = a := by
  by_cases h : a ∈ l
  · rw [insertUnique, if_pos h]
    exact ⟨Or.inl, fun hx => hx.elim id (fun he => he ▸ h)⟩
  · rw [insertUnique, if_neg h]
    simp [List.mem_append]

theorem processQueue_succ (fuel : Nat) (s : ManagerState) (now : Nat) :
    processQueue (fuel + 1) s now
      = if hasCapacity s.queue then
          match getNext s.queue with
          | (some tid, q') =>
              processQueue fuel
                (startDownloadSync
                  { s with queue := q', admittedLog := s.admittedLog ++ [tid] } tid now)
                now
          | (none, _) => s
        else s := rfl

theorem pq_deleteFileCalls (fuel : Nat) (s : ManagerState) (now : Nat) :
    (processQueue fuel s now).deleteFileCalls = s.deleteFileCalls := by
  induction fuel generalizing s with
  | zero => rfl
  | succ fuel ih =>
      rw [processQueue_succ]
      by_cases hc : hasCapacity s.queue = true
      · rw [if_pos hc]
        cases hg : getNext s.queue with
        | mk o q' =>
            cases o with
            | none => simp only [hg]
            | some tid =>
                simp only [hg]
                rw [ih, sds_deleteFileCalls]
      · rw [if_neg hc]

theorem pq_deleteMetadataCalls (fuel : Nat) (s : ManagerState) (now : Nat) :
    (processQueue fuel s now).deleteMetadataCalls = s.deleteMetadataCalls := by
  induction fuel generalizing s with
  | zero => rfl
  | succ fuel ih =>
      rw [processQueue_succ]
      by_cases hc : hasCapacity s.queue = true
      · rw [if_pos hc]
        cases hg : getNext s.queue with
        | mk o q' =>
            cases o with
            | none => simp only [hg]
            | some tid =>
                simp only [hg]
                rw [ih, sds_deleteMetadataCalls]
      · rw [if_neg hc]

theorem pq_events_mono (fuel : Nat) (s : ManagerState) (now : Nat) :
    ∃ l, (processQueue fuel s now).events = s.events ++ l := by
  induction fuel generalizing s with
  | zero => exact ⟨[], by simp [processQueue]⟩
  | succ fuel ih =>
      rw [processQueue_succ]
      by_cases hc : hasCapacity s.queue = true
      · rw [if_pos hc]
        cases hg : getNext s.queue with
        | mk o q' =>
            cases o with
            | none => simp only [hg]; exact ⟨[], by simp⟩
            | some tid =>
                simp only [hg]
                obtain ⟨l1, h1⟩ := sds_events_mono
                  { s with queue := q', admittedLog := s.admittedLog ++ [tid] } tid now
                obtain ⟨l2, h2⟩ := ih (startDownloadSync
                  { s with queue := q', admittedLog := s.admittedLog ++ [tid] } tid now)
                refine ⟨l1 ++ l2, ?_⟩
                rw [h2, h1]
                simp
      · rw [if_neg hc]; exact ⟨[], by simp⟩

theorem pq_lookup_none (fuel : Nat) (s : ManagerState) (now : Nat) (k : String)
    (h : lookupTask s.tasks k = none) :
    lookupTask (processQueue fuel s now).tasks k = none := by
  induction fuel generalizing s with
  | zero => exact h
  | succ fuel ih =>
      rw [processQueue_succ]
      by_cases hc : hasCapacity s.queue = true
      · rw [if_pos hc]
        cases hg : getNext s.queue with
        | mk o q' =>
            cases o with
            | none => simp only [hg]; exact h
            | some tid =>
                simp only [hg]
                apply ih
                rw [sds_lookup]
                by_cases hk : k = tid
                · rw [if_pos hk]
                  show (lookupTask s.tasks tid).map _ = none
                  rw [← hk, h]
                  rfl
                · rw [if_neg hk]
                  exact h
      · rw [if_neg hc]; exact h

theorem pq_avoid (fuel : Nat) (s : ManagerState) (now : Nat) (tid : String)
    (hq : tid ∉ s.queue.queue.map QueueItem.taskId)
    (ha : tid ∉ s.queue.active)
    (hd : tid ∉ s.downloads) :
    tid ∉ (processQueue fuel s now).queue.queue.map QueueItem.taskId
    ∧ tid ∉ (processQueue fuel s now).queue.active
    ∧ tid ∉ (processQueue fuel s now).downloads := by
  induction fuel generalizing s with
  | zero => exact ⟨hq, ha, hd⟩
  | succ fuel ih =>
      rw [processQueue_succ]
      by_cases hc : hasCapacity s.queue = true
      · rw [if_pos hc]
        cases hg : getNext s.queue with
        | mk o q' =>
            cases o with
            | none => simp only [hg]; exact ⟨hq, ha, hd⟩
            | some tid' =>
                simp only [hg]
                obtain ⟨item, rest, hqueue, htid', hq'⟩ := getNext_some hg
                have hne : tid ≠ item.taskId := by
                  intro he
                  apply hq
                  rw [hqueue, List.map_cons, he]
                  exact List.mem_cons_self _ _
                apply ih
                · rw [sds_queue]
                  show tid ∉ q'.queue.map QueueItem.taskId
                  rw [hq']
                  show tid ∉ rest.map QueueItem.taskId
                  intro hmem
                  exact hq (by rw [hqueue, List.map_cons]
                               exact List.mem_cons_of_mem _ hmem)
                · rw [sds_queue]
                  show tid ∉ q'.active
                  rw [hq']
                  show tid ∉ insertUnique s.queue.active item.taskId
                  intro hmem
                  rcases mem_insertUnique.mp hmem with hm | hm
                  · exact ha hm
                  · exact hne hm
                · intro hmem
                  rcases sds_downloads_mem _ tid' now tid hmem with hm | hm
                  · exact hd hm
                  · rw [htid'] at hm
                    exact hne hm
      · rw [if_neg hc]; exact ⟨hq, ha, hd⟩

theorem startFields_resumeData (now : Nat) (t : DownloadTask) :
    (if 0 < t.totalBytes then t
      else { t with status := .downloading, startedAt := some now }).resumeData
      = t.resumeData := by
  split <;> rfl

theorem pq_resumeData (fuel : Nat) (s : ManagerState) (now : Nat) (k : String) :
    (lookupTask (processQueue fuel s now).tasks k).map DownloadTask.resumeData
      = (lookupTask s.tasks k).map DownloadTask.resumeData := by
  induction fuel generalizing s with
  | zero => rfl
  | succ fuel ih =>
      rw [processQueue_succ]
      by_cases hc : hasCapacity s.queue = true
      · rw [if_pos hc]
        cases hg : getNext s.queue with
        | mk o q' =>
            cases o with
            | none => simp only [hg]
            | some tid =>
                simp only [hg]
                rw [ih, sds_lookup]
                by_cases hk : k = tid
                · rw [if_pos hk, hk]
                  show ((lookupTask s.tasks tid).map _).map _ = _
                  cases lookupTask s.tasks tid with
                  | none => rfl
                  | some t =>
                      show some ((if 0 < t.totalBytes then t else _).resumeData)
                        = some t.resumeData
                      rw [startFields_resumeData]
                · rw [if_neg hk]
      · rw [if_neg hc]

/-- Per-task part of the resume-token invariant: a completed task holds
no resume data. -/
def TaskInv (t : DownloadTask) : Prop :=
  t.status = .completed → t.resumeData = none

/-- Registry-wide resume-token invariant. -/
def RegInv (s : ManagerState) : Prop :=
  ∀ k t, lookupTask s.tasks k = some t → TaskInv t

theorem pq_regInv (fuel : Nat) (s : ManagerState) (now : Nat)
    (h : RegInv s) : RegInv (processQueue fuel s now) := by
  induction fuel generalizing s with
  | zero => exact h
  | succ fuel ih =>
      rw [processQueue_succ]
      by_cases hc : hasCapacity s.queue = true
      · rw [if_pos hc]
        cases hg : getNext s.queue with
        | mk o q' =>
            cases o with
            | none => simp only [hg]; exact h
            | some tid =>
                simp only [hg]
                apply ih
                intro k t hk
                rw [sds_lookup] at hk
                by_cases hkt : k = tid
                · rw [if_pos hkt] at hk
                  cases hl : lookupTask s.tasks tid with
                  | none =>
                      rw [hl] at hk
                      exact absurd hk (by simp)
                  | some t0 =>
                      rw [hl] at hk
                      have ht0 : TaskInv t0 := h tid t0 hl
                      simp only [Option.map] at hk
                      have hk' := Option.some.inj hk
                      rw [← hk']
                      by_cases hb : 0 < t0.totalBytes
                      · rw [if_pos hb]; exact ht0
                      · rw [if_neg hb]
                        intro hst
                        exact absurd hst (by simp)
                · rw [if_neg hkt] at hk
                  exact h k t hk
      · rw [if_neg hc]; exact h

/-! ## Cancel lemmas (claims C4 and C10) -/

/-- State after the synchronous body of `cancel` (everything before the
final `processQueue` call), matching the `cancel` source line by line;
used to decompose the cancel proofs. -/
def cancelBody (s : ManagerState) (tid : String) (task : DownloadTask) : ManagerState :=
  let s1 := if tid ∈ s.downloads then { s with downloads := s.downloads.erase tid } else s
  let s2 := { s1 with queue := queueRemove s1.queue tid }
  let s3 := { s2 with deleteFileCalls := s2.deleteFileCalls ++ [task.filePath],
                      deleteMetadataCalls := s2.deleteMetadataCalls ++ [tid] }
  let s4 := updateTaskStatus s3 tid .cancelled
  let s5 := { s4 with events := s4.events ++ [(DownloadEvent.cancelled, tid)] }
  let s6 := { s5 with tasks := removeTask s5.tasks tid }
  persistTasks s6

theorem cancel_of_some {s : ManagerState} {tid : String} {task : DownloadTask}
    (pt : Bool) (now : Nat) (h : lookupTask s.tasks tid = some task) :
    cancel s tid pt now = .ok (runQueue (cancelBody s tid task) now) := by
  unfold cancel cancelBody
  rw [h]

theorem ite_erase_queue (s : ManagerState) (tid : String) :
    (if tid ∈ s.downloads then { s with downloads := s.downloads.erase tid } else s).queue
      = s.queue := by
  split <;> rfl

theorem ite_erase_tasks (s : ManagerState) (tid : String) :
    (if tid ∈ s.downloads then { s with downloads := s.downloads.erase tid } else s).tasks
      = s.tasks := by
  split <;> rfl

theorem ite_erase_deleteFileCalls (s : ManagerState) (tid : String) :
    (if tid ∈ s.downloads then
      { s with downloads := s.downloads.erase tid } else s).deleteFileCalls
      = s.deleteFileCalls := by
  split <;> rfl

theorem ite_erase_deleteMetadataCalls (s : ManagerState) (tid : String) :
    (if tid ∈ s.downloads then
      { s with downloads := s.downloads.erase tid } else s).deleteMetadataCalls
      = s.deleteMetadataCalls := by
  split <;> rfl

theorem ite_erase_not_mem (s : ManagerState) (tid : String)
    (hnd : s.downloads.Nodup) :
    tid ∉ (if tid ∈ s.downloads then
      { s with downloads := s.downloads.erase tid } else s).downloads := by
  split
  · exact hnd.not_mem_erase
  · next h => exact h

theorem not_mem_filter_taskId (l : List QueueItem) (tid : String) :
    tid ∉ (l.filter (fun item => item.taskId ≠ tid)).map QueueItem.taskId := by
  intro h
  obtain ⟨x, hx, hxe⟩ := List.mem_map.mp h
  have hmem := List.of_mem_filter hx
  simp only [decide_eq_true_eq] at hmem
  exact hmem hxe

theorem cancelBody_lookup (s : ManagerState) (tid : String) (task : DownloadTask) :
    lookupTask (cancelBody s tid task).tasks tid = none := by
  unfold cancelBody persistTasks
  rw [lookupTask_removeTask, if_pos rfl]

theorem cancelBody_queue (s : ManagerState) (tid : String) (task : DownloadTask) :
    (cancelBody s tid task).queue = queueRemove s.queue tid := by
  unfold cancelBody persistTasks
  show (updateTaskStatus _ tid .cancelled).queue = _
  rw [updateTaskStatus_queue]
  show queueRemove _ tid = _
  rw [ite_erase_queue]

theorem cancelBody_downloads_not_mem (s : ManagerState) (tid : String)
    (task : DownloadTask) (hnd : s.downloads.Nodup) :
    tid ∉ (cancelBody s tid task).downloads := by
  unfold cancelBody persistTasks
  show tid ∉ (updateTaskStatus _ tid .cancelled).downloads
  rw [updateTaskStatus_downloads]
  exact ite_erase_not_mem s tid hnd

theorem cancelBody_deleteFileCalls (s : ManagerState) (tid : String)
    (task : DownloadTask) :
    (cancelBody s tid task).deleteFileCalls = s.deleteFileCalls ++ [task.filePath] := by
  unfold cancelBody persistTasks
  show (updateTaskStatus _ tid .cancelled).deleteFileCalls = _
  rw [updateTaskStatus_deleteFileCalls]
  show (if tid ∈ s.downloads then
    { s with downloads := s.downloads.erase tid } else s).deleteFileCalls ++ _ = _
  rw [ite_erase_deleteFileCalls]

theorem cancelBody_deleteMetadataCalls (s : ManagerState) (tid : String)
    (task : DownloadTask) :
    (cancelBody s tid task).deleteMetadataCalls = s.deleteMetadataCalls ++ [tid] := by
  unfold cancelBody persistTasks
  show (updateTaskStatus _ tid .cancelled).deleteMetadataCalls = _
  rw [updateTaskStatus_deleteMetadataCalls]
  show (if tid ∈ s.downloads then
    { s with downloads := s.downloads.erase tid } else s).deleteMetadataCalls ++ _ = _
  rw [ite_erase_deleteMetadataCalls]

theorem cancelBody_event (s : ManagerState) (tid : String) (task : DownloadTask) :
    (DownloadEvent.cancelled, tid) ∈ (cancelBody s tid task).events := by
  unfold cancelBody persistTasks
  show (DownloadEvent.cancelled, tid) ∈ (updateTaskStatus _ tid .cancelled).events ++ _
  exact List.mem_append.mpr (Or.inr (List.mem_singleton.mpr rfl))

/-- Claim C4: for every task present in the registry, `cancel` succeeds
and afterwards the task is gone from the registry, the pending queue,
the admitted set and the handle map; the storage collaborator's
delete-file and delete-metadata operations are each called exactly once
(with the task's file path, resp. its id); and the outcome is identical
whether or not the transfer primitive's pause call throws during cancel
(the error is swallowed).  The `Nodup` hypotheses record that the JS
`activeDownloads` set and the handle `Map` cannot hold duplicate keys. -/
theorem C4_cancel_purges (s : ManagerState) (tid : String) (task : DownloadTask)
    (pauseThrows : Bool) (now : Nat)
    (hlook : lookupTask s.tasks tid = some task)
    (hactive : s.queue.active.Nodup)
    (hdl : s.downloads.Nodup) :
    ∃ s', cancel s tid pauseThrows now = .ok s'
      ∧ lookupTask s'.tasks tid = none
      ∧ tid ∉ s'.queue.queue.map QueueItem.taskId
      ∧ tid ∉ s'.queue.active
      ∧ tid ∉ s'.downloads
      ∧ s'.deleteFileCalls = s.deleteFileCalls ++ [task.filePath]
      ∧ s'.deleteMetadataCalls = s.deleteMetadataCalls ++ [tid]
      ∧ cancel s tid true now = cancel s tid false now := by
  refine ⟨runQueue (cancelBody s tid task) now, cancel_of_some pauseThrows now hlook,
    ?_, ?_, ?_, ?_, ?_, ?_, ?_⟩
  · exact pq_lookup_none _ _ _ _ (cancelBody_lookup s tid task)
  · refine (pq_avoid _ _ _ _ ?_ ?_ ?_).1
    · rw [cancelBody_queue]
      exact not_mem_filter_taskId _ _
    · rw [cancelBody_queue]
      exact hactive.not_mem_erase
    · exact cancelBody_downloads_not_mem s tid task hdl
  · refine (pq_avoid _ _ _ _ ?_ ?_ ?_).2.1
    · rw [cancelBody_queue]
      exact not_mem_filter_taskId _ _
    · rw [cancelBody_queue]
      exact hactive.not_mem_erase
    · exact cancelBody_downloads_not_mem s tid task hdl
  · refine (pq_avoid _ _ _ _ ?_ ?_ ?_).2.2
    · rw [cancelBody_queue]
      exact not_mem_filter_taskId _ _
    · rw [cancelBody_queue]
      exact hactive.not_mem_erase
    · exact cancelBody_downloads_not_mem s tid task hdl
  · rw [runQueue, pq_deleteFileCalls, cancelBody_deleteFileCalls]
  · rw [runQueue, pq_deleteMetadataCalls, cancelBody_deleteMetadataCalls]
  · rw [cancel_of_some true now hlook, cancel_of_some false now hlook]

/-- Concrete state for the cancel witnesses: one completed task `t1`
with a finished file, an unrelated pending entry in the queue. -/
def cancelDemoTask : DownloadTask :=
  { id := "t1", url := "https://x/a.mp4", fileName := "a.mp4",
    filePath := "documents/downloads/a.mp4", status := .completed,
    progress := .finite 100, totalBytes := 0, downloadedBytes := 0,
    createdAt := 0, startedAt := some 1, completedAt := some 2,
    error := none, resumeData := none }

/-- Concrete manager state holding `cancelDemoTask`. -/
def cancelDemoState : ManagerState :=
  { tasks := [("t1", cancelDemoTask)], downloads := [],
    queue := { queue := [], active := [], maxConcurrent := 3 },
    autoRetryOnNetworkRestore := true, admittedLog := ["t1"],
    deleteFileCalls := [], deleteMetadataCalls := [], saveMetadataCalls := ["t1"],
    events := [], saveTasksCount := 1 }

/-- Witness for C4 at a concrete state, with the pause-throwing outcome. -/
theorem C4_cancel_purges_witness :
    ∃ s', cancel cancelDemoState "t1" true 9 = .ok s'
      ∧ lookupTask s'.tasks "t1" = none
      ∧ "t1" ∉ s'.queue.queue.map QueueItem.taskId
      ∧ "t1" ∉ s'.queue.active
      ∧ "t1" ∉ s'.downloads
      ∧ s'.deleteFileCalls = cancelDemoState.deleteFileCalls ++ [cancelDemoTask.filePath]
      ∧ s'.deleteMetadataCalls = cancelDemoState.deleteMetadataCalls ++ ["t1"]
      ∧ cancel cancelDemoState "t1" true 9 = cancel cancelDemoState "t1" false 9 :=
  C4_cancel_purges cancelDemoState "t1" cancelDemoTask true 9 (by rfl)
    (by decide) (by decide)

/-- Claim C10: `cancel` performs no state check; in particular a task in
the terminal Completed state is cancelled like any other: the call
succeeds, the finished file and the metadata are deleted, the cancelled
event is emitted, and the task leaves the registry. -/
theorem C10_cancel_completed (s : ManagerState) (tid : String) (task : DownloadTask)
    (pauseThrows : Bool) (now : Nat)
    (hlook : lookupTask s.tasks tid = some task)
    (hstatus : task.status = .completed) :
    ∃ s', cancel s tid pauseThrows now = .ok s'
      ∧ s'.deleteFileCalls = s.deleteFileCalls ++ [task.filePath]
      ∧ s'.deleteMetadataCalls = s.deleteMetadataCalls ++ [tid]
      ∧ (DownloadEvent.cancelled, tid) ∈ s'.events
      ∧ lookupTask s'.tasks tid = none := by
  refine ⟨runQueue (cancelBody s tid task) now, cancel_of_some pauseThrows now hlook,
    ?_, ?_, ?_, ?_⟩
  · rw [runQueue, pq_deleteFileCalls, cancelBody_deleteFileCalls]
  · rw [runQueue, pq_deleteMetadataCalls, cancelBody_deleteMetadataCalls]
  · rw [runQueue]
    obtain ⟨l, hl⟩ := pq_events_mono (cancelBody s tid task).queue.queue.length
      (cancelBody s tid task) now
    rw [hl]
    exact List.mem_append.mpr (Or.inl (cancelBody_event s tid task))
  · exact pq_lookup_none _ _ _ _ (cancelBody_lookup s tid task)

/-- Witness for C10: cancelling the concrete completed task. -/
theorem C10_cancel_completed_witness :
    ∃ s', cancel cancelDemoState "t1" false 9 = .ok s'
      ∧ s'.deleteFileCalls = cancelDemoState.deleteFileCalls ++ [cancelDemoTask.filePath]
      ∧ s'.deleteMetadataCalls = cancelDemoState.deleteMetadataCalls ++ ["t1"]
      ∧ (DownloadEvent.cancelled, "t1") ∈ s'.events
      ∧ lookupTask s'.tasks "t1" = none :=
  C10_cancel_completed cancelDemoState "t1" cancelDemoTask false 9 (by rfl) (by rfl)

/-! ## Restart restore (claim C5) -/

theorem resetLoadedTask_status_ne (t : DownloadTask) :
    (resetLoadedTask t).status ≠ .downloading := by
  unfold resetLoadedTask
  split
  · intro h
    exact absurd h (by simp)
  · next h => exact h

theorem resetLoadedTask_of_downloading {t : DownloadTask}
    (h : t.status = .downloading) :
    resetLoadedTask t = { t with status := .paused } := by
  unfold resetLoadedTask
  rw [if_pos h]

theorem resetLoadedTask_of_ne {t : DownloadTask} (h : t.status ≠ .downloading) :
    resetLoadedTask t = t := by
  unfold resetLoadedTask
  rw [if_neg h]

theorem load_foldl_untouched (saved : List DownloadTask)
    (m : List (String × DownloadTask)) (tid : String)
    (h : tid ∉ saved.map DownloadTask.id) :
    lookupTask (saved.foldl (fun m t => setTask m t.id (resetLoadedTask t)) m) tid
      = lookupTask m tid := by
  induction saved generalizing m with
  | nil => rfl
  | cons t0 rest ih =>
      rw [List.map_cons] at h
      rw [List.foldl_cons, ih _ (fun hm => h (List.mem_cons_of_mem _ hm)),
        lookupTask_setTask, if_neg]
      intro he
      exact h (he ▸ List.mem_cons_self _ _)

theorem load_foldl_lookup (saved : List DownloadTask)
    (m : List (String × DownloadTask))
    (hnd : (saved.map DownloadTask.id).Nodup) (t : DownloadTask) (ht : t ∈ saved) :
    lookupTask (saved.foldl (fun m t => setTask m t.id (resetLoadedTask t)) m) t.id
      = some (resetLoadedTask t) := by
  induction saved generalizing m with
  | nil => exact absurd ht (List.not_mem_nil t)
  | cons t0 rest ih =>
      rw [List.map_cons, List.nodup_cons] at hnd
      rcases List.mem_cons.mp ht with rfl | hmem
      · rw [List.foldl_cons, load_foldl_untouched rest _ t.id hnd.1,
          lookupTask_setTask, if_pos rfl]
      · rw [List.foldl_cons]
        exact ih _ hnd.2 hmem

theorem load_foldl_no_downloading (saved : List DownloadTask)
    (m : List (String × DownloadTask))
    (h : ∀ tid t, lookupTask m tid = some t → t.status ≠ .downloading) :
    ∀ tid t,
      lookupTask (saved.foldl (fun m t => setTask m t.id (resetLoadedTask t)) m) tid
        = some t → t.status ≠ .downloading := by
  induction saved generalizing m with
  | nil => exact h
  | cons t0 rest ih =>
      rw [List.foldl_cons]
      apply ih
      intro tid t hl
      rw [lookupTask_setTask] at hl
      by_cases he : tid = t0.id
      · rw [if_pos he] at hl
        rw [← Option.some.inj hl]
        exact resetLoadedTask_status_ne t0
      · rw [if_neg he] at hl
        exact h tid t hl

/-- Claim C5: loading a persisted snapshot with pairwise distinct ids
(as produced by the registry) resets every task saved as Downloading to
Paused, loads every other task unchanged, and leaves no loaded task in
the Downloading state. -/
theorem C5_restore_pauses_active (saved : List DownloadTask)
    (hnd : (saved.map DownloadTask.id).Nodup) :
    (∀ t ∈ saved, t.status = .downloading →
        lookupTask (loadPersistedTasks saved) t.id = some { t with status := .paused })
    ∧ (∀ t ∈ saved, t.status ≠ .downloading →
        lookupTask (loadPersistedTasks saved) t.id = some t)
    ∧ (∀ tid t, lookupTask (loadPersistedTasks saved) tid = some t →
        t.status ≠ .downloading) := by
  refine ⟨?_, ?_, ?_⟩
  · intro t ht hst
    rw [loadPersistedTasks, load_foldl_lookup saved [] hnd t ht,
      resetLoadedTask_of_downloading hst]
  · intro t ht hst
    rw [loadPersistedTasks, load_foldl_lookup saved [] hnd t ht,
      resetLoadedTask_of_ne hst]
  · exact load_foldl_no_downloading saved []
      (fun tid t hl => absurd hl (by simp [lookupTask]))

/-- Concrete persisted snapshot for the C5 witness: one task saved while
Downloading, one saved Completed. -/
def savedDemo : List DownloadTask :=
  [{ id := "a", url := "https://x/a.mp4", fileName := "a.mp4",
     filePath := "documents/downloads/a.mp4", status := .downloading,
     progress := .finite 40, totalBytes := 1000, downloadedBytes := 400,
     createdAt := 0, startedAt := some 1, completedAt := none,
     error := none, resumeData := some "tok" },
   { id := "b", url := "https://x/b.mp4", fileName := "b.mp4",
     filePath := "documents/downloads/b.mp4", status := .completed,
     progress := .finite 100, totalBytes := 500, downloadedBytes := 500,
     createdAt := 0, startedAt := some 1, completedAt := some 2,
     error := none, resumeData := none }]

/-- Witness for C5 on the concrete snapshot. -/
theorem C5_restore_pauses_active_witness :
    lookupTask (loadPersistedTasks savedDemo) "a"
        = some { (savedDemo.get ⟨0, by decide⟩) with status := .paused }
    ∧ lookupTask (loadPersistedTasks savedDemo) "b" = some (savedDemo.get ⟨1, by decide⟩) :=
  ⟨(C5_restore_pauses_active savedDemo (by decide)).1 (savedDemo.get ⟨0, by decide⟩)
      (by decide) (by decide),
   (C5_restore_pauses_active savedDemo (by decide)).2.1 (savedDemo.get ⟨1, by decide⟩)
      (by decide) (by decide)⟩

/-! ## Network policy (claim C6) -/

/-- Claim C6: when the network goes offline, pause is requested for
exactly the tasks currently in the Downloading state; when it comes back
online with auto-retry enabled, resume is requested for exactly the
Failed tasks whose recorded error code is NETWORK_ERROR, and Failed
tasks with other codes (invalid URL, insufficient storage) are not
resumed. -/
theorem C6_network_policy (s : ManagerState) (t : DownloadTask) :
    (t ∈ offlinePauseTargets s ↔ t ∈ getAllTasks s ∧ t.status = .downloading)
    ∧ (s.autoRetryOnNetworkRestore = true →
        (t ∈ onlineResumeTargets s ↔ t ∈ getAllTasks s ∧ t.status = .failed
          ∧ t.error.map DownloadError.code = some "NETWORK_ERROR"))
    ∧ ((t.error.map DownloadError.code = some "INVALID_URL"
        ∨ t.error.map DownloadError.code = some "INSUFFICIENT_STORAGE")
        → t ∉ onlineResumeTargets s) := by
  refine ⟨?_, ?_, ?_⟩
  · simp [offlinePauseTargets, getActiveDownloads, List.mem_filter]
  · intro h
    simp [onlineResumeTargets, h, List.mem_filter, and_assoc]
  · intro hcode hmem
    unfold onlineResumeTargets at hmem
    split at hmem
    · exact absurd hmem (List.not_mem_nil t)
    · have := (List.mem_filter.mp hmem).2
      simp only [decide_eq_true_eq] at this
      rcases hcode with hc | hc <;> rw [hc] at this <;>
        exact absurd (Option.some.inj this.2) (by decide)

/-- Concrete tasks for the C6 witness. -/
def netFailedTask : DownloadTask :=
  { id := "n", url := "https://x/n.mp4", fileName := "n.mp4",
    filePath := "documents/downloads/n.mp4", status := .failed,
    progress := .finite 10, totalBytes := 1000, downloadedBytes := 100,
    createdAt := 0, startedAt := some 1, completedAt := none,
    error := some { code := "NETWORK_ERROR", message := "net", timestamp := 5 },
    resumeData := none }

/-- Failed task whose error is not network-class. -/
def storageFailedTask : DownloadTask :=
  { id := "i", url := "https://x/i.mp4", fileName := "i.mp4",
    filePath := "documents/downloads/i.mp4", status := .failed,
    progress := .finite 0, totalBytes := 1000, downloadedBytes := 0,
    createdAt := 0, startedAt := some 1, completedAt := none,
    error := some { code := "INSUFFICIENT_STORAGE", message := "disk", timestamp := 5 },
    resumeData := none }

/-- Task currently downloading. -/
def activeDemoTask : DownloadTask :=
  { id := "d", url := "https://x/d.mp4", fileName := "d.mp4",
    filePath := "documents/downloads/d.mp4", status := .downloading,
    progress := .finite 50, totalBytes := 1000, downloadedBytes := 500,
    createdAt := 0, startedAt := some 1, completedAt := none,
    error := none, resumeData := none }

/-- Registry holding the three C6 demo tasks, auto-retry enabled. -/
def netDemoState : ManagerState :=
  { tasks := [("n", netFailedTask), ("i", storageFailedTask), ("d", activeDemoTask)],
    downloads := ["d"],
    queue := { queue := [], active := ["d"], maxConcurrent := 3 },
    autoRetryOnNetworkRestore := true, admittedLog := [],
    deleteFileCalls := [], deleteMetadataCalls := [], saveMetadataCalls := [],
    events := [], saveTasksCount := 0 }

/-- Witness for C6: the network-failed task is resumed, the
storage-failed one is not, the downloading one gets paused. -/
theorem C6_network_policy_witness :
    netFailedTask ∈ onlineResumeTargets netDemoState
    ∧ storageFailedTask ∉ onlineResumeTargets netDemoState
    ∧ activeDemoTask ∈ offlinePauseTargets netDemoState :=
  ⟨((C6_network_policy netDemoState netFailedTask).2.1 rfl).mpr
      ⟨by decide, by decide, by decide⟩,
   (C6_network_policy netDemoState storageFailedTask).2.2 (Or.inr (by decide)),
   (C6_network_policy netDemoState activeDemoTask).1.mpr ⟨by decide, by decide⟩⟩

/-! ## Progress computation (claim C7) -/

/-- Lookup after a progress callback for a registered task. -/
theorem handleProgress_lookup (s : ManagerState) (tid : String) (w tot : ℚ)
    {t : DownloadTask} (h : lookupTask s.tasks tid = some t) :
    lookupTask (handleProgress s tid w tot).tasks tid
      = some { t with totalBytes := tot, downloadedBytes := w,
                      progress := jsRound (jsMul (jsDiv (.finite w) (.finite tot))
                        (.finite 100)) } := by
  unfold handleProgress
  rw [h]
  show lookupTask (modifyTask s tid _).tasks tid = _
  rw [lookupTask_modifyTask, if_pos rfl, h]
  rfl

/-- Task used in the progress examples: mid-download at 50 percent. -/
def progressDemoTask : DownloadTask :=
  { id := "t1", url := "https://x/t.mp4", fileName := "t.mp4",
    filePath := "documents/downloads/t.mp4", status := .downloading,
    progress := .finite 50, totalBytes := 1000, downloadedBytes := 500,
    createdAt := 0, startedAt := some 1, completedAt := none,
    error := none, resumeData := none }

/-- Concrete state for the progress claims: task `t1` mid-download with
progress 50. -/
def progressDemoState : ManagerState :=
  { tasks := [("t1", progressDemoTask)],
    downloads := ["t1"],
    queue := { queue := [], active := ["t1"], maxConcurrent := 3 },
    autoRetryOnNetworkRestore := true, admittedLog := ["t1"],
    deleteFileCalls := [], deleteMetadataCalls := [], saveMetadataCalls := [],
    events := [], saveTasksCount := 0 }

/-- Claim C7 is violated by the code: `handleProgress` has no guard for a
zero `totalBytesExpectedToWrite`.  A progress callback with total 0 sets
the task's progress to `NaN` (written 0) or `Infinity` (written &gt; 0)
instead of leaving it at its prior value 50; the documented 0-100
percentage and the spec's indeterminate-guard are both broken.  A
well-formed callback (500 of 1000 bytes) rounds to 50 as specified. -/
theorem C7_progress_zero_total :
    ((lookupTask (handleProgress progressDemoState "t1" 0 0).tasks "t1").map
        DownloadTask.progress = some JSNum.nan)
    ∧ ((lookupTask (handleProgress progressDemoState "t1" 5 0).tasks "t1").map
        DownloadTask.progress = some JSNum.posInf)
    ∧ ((lookupTask progressDemoState.tasks "t1").map DownloadTask.progress
        = some (JSNum.finite 50))
    ∧ some JSNum.nan ≠ some (JSNum.finite 50)
    ∧ ((lookupTask (handleProgress progressDemoState "t1" 500 1000).tasks "t1").map
        DownloadTask.progress = some (JSNum.finite 50)) := by
  refine ⟨by decide, by decide, by decide, by decide, ?_⟩
  rw [handleProgress_lookup progressDemoState "t1" 500 1000 rfl]
  show some (jsRound (jsMul (jsDiv (.finite 500) (.finite 1000)) (.finite 100)))
    = some (JSNum.finite 50)
  have hdiv : jsDiv (JSNum.finite 500) (JSNum.finite 1000)
      = JSNum.finite (500 / 1000) := by
    simp only [jsDiv]
    rw [if_neg (by norm_num)]
  have hround : jsRound (JSNum.finite (500 / 1000 * 100)) = JSNum.finite 50 := by
    show JSNum.finite ((⌊(500 / 1000 * 100 : ℚ) + 1 / 2⌋ : ℤ) : ℚ) = JSNum.finite 50
    norm_num
  rw [hdiv]
  show some (jsRound (JSNum.finite (500 / 1000 * 100))) = _
  rw [hround]

/-! ## Admission order under limit 1 (claim C9) -/

/-- Harness glue: perform a `download` call, keeping the resulting state
(the scenarios below only submit valid URLs, so the call never fails). -/
def trySubmit (s : ManagerState) (url fileName : String) (priority : Int)
    (tid : String) (now : Nat) : ManagerState :=
  match download s url fileName priority tid now with
  | .ok s' => s'
  | .error _ => s

/-- Fresh manager with concurrency limit 1 (auto-retry on). -/
def c9Base : ManagerState := initialManager 1 true

/-- Counterexample to claim C9: under limit 1, submitting the
priority-0 task first admits it immediately (capacity is free at
submission time), so the priority-5 task submitted afterwards is NOT
admitted first — the admission log after both submissions is `["tA"]`,
not one beginning with `"tB"`. -/
theorem C9_counterexample :
    (trySubmit (trySubmit c9Base "https://x/a.mp4" "a.mp4" 0 "tA" 0)
        "https://x/b.mp4" "b.mp4" 5 "tB" 1).admittedLog = ["tA"]
    ∧ ((["tA"] : List String).head? = some "tA")
    ∧ ("tA" : String) ≠ "tB" := by
  refine ⟨by decide, by decide, by decide⟩

/-- Manager whose single slot is already taken by task `tC`. -/
def c9Busy : ManagerState := trySubmit c9Base "https://x/c.mp4" "c.mp4" 0 "tC" 0

/-- Claim C9 amended: under concurrency limit 1, if both submissions are
made while the single slot is occupied (so both are still pending when a
slot frees), the priority-5 task is admitted before the priority-0 task
regardless of submission order; when capacity is free at submission
time, the first submission is admitted immediately upon submission. -/
theorem C9_priority_admission :
    ((deliverSuccess
        (trySubmit (trySubmit c9Busy "https://x/a.mp4" "a.mp4" 0 "tA" 1)
          "https://x/b.mp4" "b.mp4" 5 "tB" 2) "tC" 3).admittedLog = ["tC", "tB"])
    ∧ ((deliverSuccess
        (trySubmit (trySubmit c9Busy "https://x/b.mp4" "b.mp4" 5 "tB" 1)
          "https://x/a.mp4" "a.mp4" 0 "tA" 2) "tC" 3).admittedLog = ["tC", "tB"])
    ∧ (trySubmit c9Base "https://x/a.mp4" "a.mp4" 0 "tA" 0).admittedLog = ["tA"] := by
  refine ⟨by decide, by decide, by decide⟩

/-! ## Resume-token lifecycle (claim C8) -/

/-- State after the success path of `pause` (before its final
`processQueue`): store the resume data, set Paused, persist, free the
slot, drop the handle. -/
def pauseBody (s : ManagerState) (tid : String) (rd : String) : ManagerState :=
  let s1 := modifyTask s tid (fun t => { t with resumeData := some rd })
  let s2 := updateTaskStatus s1 tid .paused
  let s3 := persistTasks s2
  { s3 with queue := queueComplete s3.queue tid, downloads := s3.downloads.erase tid }

/-- State after the body of `resume` for a task in Paused state (before
the final `processQueue`). -/
def resumeBodyPaused (s : ManagerState) (tid : String) (now : Nat) : ManagerState :=
  let s2 := updateTaskStatus s tid .pending
  { s2 with queue := queueAdd s2.queue tid 0 now }

/-- State after the body of `resume` for a task in Failed state: the
error is cleared first. -/
def resumeBodyFailed (s : ManagerState) (tid : String) (now : Nat) : ManagerState :=
  let s1 := modifyTask s tid (fun t => { t with error := none })
  let s2 := updateTaskStatus s1 tid .pending
  { s2 with queue := queueAdd s2.queue tid 0 now }

theorem pause_of_some_ok {s : ManagerState} {tid : String} {task : DownloadTask}
    (rd : String) (now : Nat) (hl : lookupTask s.tasks tid = some task)
    (hst : task.status = .downloading) (hdl : tid ∈ s.downloads) :
    pause s tid (some rd) now = .ok (runQueue (pauseBody s tid rd) now) := by
  unfold pause pauseBody
  simp only [hl]
  rw [if_neg (by rw [hst]; exact fun hc => hc rfl), if_pos hdl]

theorem resume_of_none {s : ManagerState} {tid : String} (online : Bool) (now : Nat)
    (hl : lookupTask s.tasks tid = none) :
    resume s tid online now = .error "Task not found" := by
  unfold resume
  rw [hl]

theorem resume_of_other {s : ManagerState} {tid : String} {task : DownloadTask}
    (online : Bool) (now : Nat) (hl : lookupTask s.tasks tid = some task)
    (hst : task.status ≠ .paused ∧ task.status ≠ .failed) :
    resume s tid online now = .ok s := by
  unfold resume
  simp only [hl]
  rw [if_pos hst]

theorem resume_of_offline {s : ManagerState} {tid : String} {task : DownloadTask}
    (now : Nat) (hl : lookupTask s.tasks tid = some task)
    (hst : ¬(task.status ≠ .paused ∧ task.status ≠ .failed)) :
    resume s tid false now = .error "No network connection" := by
  unfold resume
  simp only [hl]
  rw [if_neg hst, if_pos (by simp)]

theorem resume_of_paused {s : ManagerState} {tid : String} {task : DownloadTask}
    (now : Nat) (hl : lookupTask s.tasks tid = some task)
    (hst : task.status = .paused) :
    resume s tid true now = .ok (runQueue (resumeBodyPaused s tid now) now) := by
  unfold resume resumeBodyPaused
  simp only [hl]
  rw [if_neg (by rw [hst]; exact fun hc => hc.1 rfl),
    if_neg (by simp), if_neg (by rw [hst]; exact fun hc => by cases hc)]

theorem resume_of_failed {s : ManagerState} {tid : String} {task : DownloadTask}
    (now : Nat) (hl : lookupTask s.tasks tid = some task)
    (hst : task.status = .failed) :
    resume s tid true now = .ok (runQueue (resumeBodyFailed s tid now) now) := by
  unfold resume resumeBodyFailed
  simp only [hl]
  rw [if_neg (by rw [hst]; exact fun hc => hc.2 rfl),
    if_neg (by simp), if_pos hst]

theorem download_of_valid {s : ManagerState} {url : String}
    (fileName : String) (priority : Int) (tid : String) (now : Nat)
    (hv : validateUrl url = true) :
    download s url fileName priority tid now
      = .ok (runQueue
          { s with tasks := setTask s.tasks tid (newDownloadTask url fileName tid now),
                   saveMetadataCalls := s.saveMetadataCalls ++ [tid],
                   queue := queueAdd s.queue tid priority now } now) := by
  unfold download
  rw [if_neg (not_not_intro hv)]

theorem download_of_invalid {s : ManagerState} {url : String}
    (fileName : String) (priority : Int) (tid : String) (now : Nat)
    (hv : ¬ validateUrl url = true) :
    download s url fileName priority tid now = .error "INVALID_URL: Invalid URL format" := by
  unfold download
  rw [if_pos hv]

/-- Steps a fresh `DownloadManager` can take: the public operations plus
the delivery of the external transfer primitive's outcomes (each
delivered outcome corresponds to the continuation after an `await` in
`startDownload`/`pause`). -/
inductive ReachableM : ManagerState → Prop where
  | init (maxConcurrent : Nat) (autoRetry : Bool) :
      ReachableM (initialManager maxConcurrent autoRetry)
  | download {s s' : ManagerState} (url fileName : String) (priority : Int)
      (tid : String) (now : Nat) (hs : ReachableM s)
      (h : download s url fileName priority tid now = .ok s') : ReachableM s'
  | pause {s s' : ManagerState} (tid : String) (pauseResult : Option String)
      (now : Nat) (hs : ReachableM s)
      (h : pause s tid pauseResult now = .ok s') : ReachableM s'
  | resume {s s' : ManagerState} (tid : String) (online : Bool) (now : Nat)
      (hs : ReachableM s) (h : resume s tid online now = .ok s') : ReachableM s'
  | cancel {s s' : ManagerState} (tid : String) (pt : Bool) (now : Nat)
      (hs : ReachableM s) (h : cancel s tid pt now = .ok s') : ReachableM s'
  | success {s : ManagerState} (tid : String) (now : Nat) (hs : ReachableM s)
      (hdl : tid ∈ s.downloads) : ReachableM (deliverSuccess s tid now)
  | failure {s : ManagerState} (tid code msg : String) (now : Nat)
      (hs : ReachableM s) : ReachableM (handleDownloadError s tid code msg now)
  | progressEvent {s : ManagerState} (tid : String) (w tot : ℚ)
      (hs : ReachableM s) : ReachableM (handleProgress s tid w tot)
  | storageOk {s : ManagerState} (tid : String) (now : Nat)
      (hs : ReachableM s) : ReachableM (startDownloadContinue s tid now)

theorem regInv_of_tasks_eq {s1 s2 : ManagerState} (h : s2.tasks = s1.tasks)
    (hi : RegInv s1) : RegInv s2 := by
  intro k t hl
  rw [h] at hl
  exact hi k t hl

theorem regInv_setTask {s : ManagerState} {k : String} {v : DownloadTask}
    {rest : ManagerState} (heq : rest.tasks = setTask s.tasks k v)
    (hi : RegInv s) (hv : TaskInv v) : RegInv rest := by
  intro k' t hl
  rw [heq, lookupTask_setTask] at hl
  by_cases he : k' = k
  · rw [if_pos he] at hl
    rw [← Option.some.inj hl]
    exact hv
  · rw [if_neg he] at hl
    exact hi k' t hl

theorem regInv_modify_general {s : ManagerState} {tid : String}
    {f : DownloadTask → DownloadTask} (hf : ∀ t, TaskInv t → TaskInv (f t))
    (hi : RegInv s) : RegInv (modifyTask s tid f) := by
  intro k t hl
  rw [lookupTask_modifyTask] at hl
  by_cases he : k = tid
  · rw [if_pos he] at hl
    cases hlk : lookupTask s.tasks tid with
    | none => rw [hlk] at hl; exact absurd hl (by simp)
    | some t0 =>
        rw [hlk] at hl
        rw [← Option.some.inj hl]
        exact hf t0 (hi tid t0 hlk)
  · rw [if_neg he] at hl
    exact hi k t hl

theorem regInv_update_ne {s : ManagerState} {tid : String} {st : DownloadStatus}
    (hst : st ≠ .completed) (hi : RegInv s) : RegInv (updateTaskStatus s tid st) := by
  intro k t hl
  rw [lookupTask_updateTaskStatus] at hl
  by_cases he : k = tid
  · rw [if_pos he] at hl
    cases hlk : lookupTask s.tasks tid with
    | none => rw [hlk] at hl; exact absurd hl (by simp)
    | some t0 =>
        rw [hlk] at hl
        rw [← Option.some.inj hl]
        intro hc
        exact absurd hc hst
  · rw [if_neg he] at hl
    exact hi k t hl

theorem regInv_update_completed {s : ManagerState} {tid : String}
    (hnone : ∀ t0, lookupTask s.tasks tid = some t0 → t0.resumeData = none)
    (hi : RegInv s) : RegInv (updateTaskStatus s tid .completed) := by
  intro k t hl
  rw [lookupTask_updateTaskStatus] at hl
  by_cases he : k = tid
  · rw [if_pos he] at hl
    cases hlk : lookupTask s.tasks tid with
    | none => rw [hlk] at hl; exact absurd hl (by simp)
    | some t0 =>
        rw [hlk] at hl
        rw [← Option.some.inj hl]
        intro _
        exact hnone t0 hlk
  · rw [if_neg he] at hl
    exact hi k t hl

theorem regInv_modify_at {s : ManagerState} {tid : String}
    {f : DownloadTask → DownloadTask}
    (hsafe : ∀ t0, lookupTask s.tasks tid = some t0 → TaskInv (f t0))
    (hi : RegInv s) : RegInv (modifyTask s tid f) := by
  intro k t hl
  rw [lookupTask_modifyTask] at hl
  by_cases he : k = tid
  · rw [if_pos he] at hl
    cases hlk : lookupTask s.tasks tid with
    | none => rw [hlk] at hl; exact absurd hl (by simp)
    | some t0 =>
        rw [hlk] at hl
        rw [← Option.some.inj hl]
        exact hsafe t0 hlk
  · rw [if_neg he] at hl
    exact hi k t hl

theorem runQueue_regInv {s : ManagerState} (now : Nat) (hi : RegInv s) :
    RegInv (runQueue s now) :=
  pq_regInv _ s now hi

theorem download_regInv {s s' : ManagerState} {url fileName : String} {priority : Int}
    {tid : String} {now : Nat}
    (h : download s url fileName priority tid now = .ok s') (hi : RegInv s) :
    RegInv s' := by
  by_cases hv : validateUrl url = true
  · rw [download_of_valid fileName priority tid now hv] at h
    rw [← Except.ok.inj h]
    apply runQueue_regInv
    refine regInv_setTask rfl hi ?_
    intro hc
    simp [newDownloadTask] at hc
  · rw [download_of_invalid fileName priority tid now hv] at h
    exact Except.noConfusion h

theorem pauseBody_regInv {s : ManagerState} {tid : String} {task : DownloadTask}
    (rd : String) (hl : lookupTask s.tasks tid = some task)
    (hst : task.status = .downloading) (hi : RegInv s) :
    RegInv (pauseBody s tid rd) := by
  unfold pauseBody persistTasks
  apply regInv_of_tasks_eq rfl
  apply regInv_update_ne (by decide)
  refine regInv_modify_at ?_ hi
  intro t0 hl0
  rw [hl0] at hl
  have ht0 : t0 = task := Option.some.inj hl
  subst ht0
  intro hc
  have hc2 : t0.status = .completed := hc
  exact absurd (hst.symm.trans hc2) (by decide)

theorem pause_regInv {s s' : ManagerState} {tid : String} {pr : Option String}
    {now : Nat} (h : pause s tid pr now = .ok s') (hi : RegInv s) : RegInv s' := by
  cases hlk : lookupTask s.tasks tid with
  | none =>
      unfold pause at h
      simp only [hlk] at h
      exact Except.noConfusion h
  | some task =>
      by_cases hst : task.status ≠ .downloading
      · unfold pause at h
        simp only [hlk] at h
        rw [if_pos hst] at h
        rw [← Except.ok.inj h]
        exact hi
      · by_cases hdl : tid ∈ s.downloads
        · cases pr with
          | none =>
              unfold pause at h
              simp only [hlk] at h
              rw [if_neg hst, if_pos hdl] at h
              have h2 : Except.ok (ε := String) s = .ok s' := h
              rw [← Except.ok.inj h2]
              exact hi
          | some rd =>
              rw [pause_of_some_ok rd now hlk (not_not.mp hst) hdl] at h
              rw [← Except.ok.inj h]
              exact runQueue_regInv now (pauseBody_regInv rd hlk (not_not.mp hst) hi)
        · unfold pause at h
          simp only [hlk] at h
          rw [if_neg hst, if_neg hdl] at h
          rw [← Except.ok.inj h]
          exact hi

theorem resume_regInv {s s' : ManagerState} {tid : String} {online : Bool}
    {now : Nat} (h : resume s tid online now = .ok s') (hi : RegInv s) : RegInv s' := by
  cases hlk : lookupTask s.tasks tid with
  | none =>
      rw [resume_of_none online now hlk] at h
      exact Except.noConfusion h
  | some task =>
      by_cases hst : task.status ≠ .paused ∧ task.status ≠ .failed
      · rw [resume_of_other online now hlk hst] at h
        rw [← Except.ok.inj h]
        exact hi
      · cases online with
        | false =>
            rw [resume_of_offline now hlk hst] at h
            exact Except.noConfusion h
        | true =>
            have hpf : task.status = .paused ∨ task.status = .failed := by
              rcases not_and_or.mp hst with h1 | h1
              · exact Or.inl (not_not.mp h1)
              · exact Or.inr (not_not.mp h1)
            rcases hpf with hp | hf2
            · rw [resume_of_paused now hlk hp] at h
              rw [← Except.ok.inj h]
              apply runQueue_regInv
              unfold resumeBodyPaused
              apply regInv_of_tasks_eq rfl
              exact regInv_update_ne (by decide) hi
            · rw [resume_of_failed now hlk hf2] at h
              rw [← Except.ok.inj h]
              apply runQueue_regInv
              unfold resumeBodyFailed
              apply regInv_of_tasks_eq rfl
              apply regInv_update_ne (by decide)
              refine regInv_modify_general ?_ hi
              intro t ht hc
              exact ht hc

theorem cancelBody_lookup_any (s : ManagerState) (tid : String) (task : DownloadTask)
    (k : String) :
    lookupTask (cancelBody s tid task).tasks k
      = if k = tid then none else lookupTask s.tasks k := by
  unfold cancelBody persistTasks
  by_cases he : k = tid
  · simp only [lookupTask_removeTask, if_pos he]
  · simp only [lookupTask_removeTask, lookupTask_updateTaskStatus, if_neg he]
    rw [ite_erase_tasks]

theorem cancel_regInv {s s' : ManagerState} {tid : String} {pt : Bool}
    {now : Nat} (h : cancel s tid pt now = .ok s') (hi : RegInv s) : RegInv s' := by
  cases hlk : lookupTask s.tasks tid with
  | none =>
      unfold cancel at h
      simp only [hlk] at h
      exact Except.noConfusion h
  | some task =>
      rw [cancel_of_some pt now hlk] at h
      rw [← Except.ok.inj h]
      apply runQueue_regInv
      intro k t hl
      rw [cancelBody_lookup_any] at hl
      by_cases he : k = tid
      · rw [if_pos he] at hl
        exact absurd hl (by simp)
      · rw [if_neg he] at hl
        exact hi k t hl

theorem deliverSuccess_regInv {s : ManagerState} (tid : String) (now : Nat)
    (hi : RegInv s) : RegInv (deliverSuccess s tid now) := by
  unfold deliverSuccess persistTasks runQueue
  apply pq_regInv
  apply regInv_of_tasks_eq rfl
  refine regInv_update_completed ?_ ?_
  · intro t0 hl0
    rw [lookupTask_modifyTask, if_pos rfl] at hl0
    cases hlk : lookupTask s.tasks tid with
    | none => rw [hlk] at hl0; exact absurd hl0 (by simp)
    | some u =>
        rw [hlk] at hl0
        rw [← Option.some.inj hl0]
  · exact regInv_modify_general (fun t _ _ => rfl) hi

theorem handleDownloadError_regInv {s : ManagerState} (tid code msg : String)
    (now : Nat) (hi : RegInv s) : RegInv (handleDownloadError s tid code msg now) := by
  unfold handleDownloadError
  cases hlk : lookupTask s.tasks tid with
  | none => simp only [hlk]; exact hi
  | some t0 =>
      simp only [hlk]
      unfold persistTasks runQueue
      apply pq_regInv
      apply regInv_of_tasks_eq rfl
      apply regInv_update_ne (by decide)
      refine regInv_modify_general ?_ hi
      intro t ht hc
      exact ht hc

theorem handleProgress_regInv {s : ManagerState} (tid : String) (w tot : ℚ)
    (hi : RegInv s) : RegInv (handleProgress s tid w tot) := by
  unfold handleProgress
  cases hlk : lookupTask s.tasks tid with
  | none => simp only [hlk]; exact hi
  | some t0 =>
      simp only [hlk]
      apply regInv_of_tasks_eq rfl
      refine regInv_modify_general ?_ hi
      intro t ht hc
      exact ht hc

theorem startDownloadContinue_regInv {s : ManagerState} (tid : String) (now : Nat)
    (hi : RegInv s) : RegInv (startDownloadContinue s tid now) := by
  unfold startDownloadContinue
  apply regInv_of_tasks_eq rfl
  refine regInv_modify_general ?_ (regInv_update_ne (by decide) hi)
  intro t ht hc
  exact ht hc

theorem reachable_regInv {s : ManagerState} (h : ReachableM s) : RegInv s := by
  induction h with
  | init maxConcurrent autoRetry =>
      intro k t hl
      simp [initialManager, lookupTask] at hl
  | download url fileName priority tid now hs h ih => exact download_regInv h ih
  | pause tid pauseResult now hs h ih => exact pause_regInv h ih
  | resume tid online now hs h ih => exact resume_regInv h ih
  | cancel tid pt now hs h ih => exact cancel_regInv h ih
  | success tid now hs hdl ih => exact deliverSuccess_regInv tid now ih
  | failure tid code msg now hs ih => exact handleDownloadError_regInv tid code msg now ih
  | progressEvent tid w tot hs ih => exact handleProgress_regInv tid w tot ih
  | storageOk tid now hs ih => exact startDownloadContinue_regInv tid now ih

theorem pauseBody_lookup {s : ManagerState} {tid : String} {task : DownloadTask}
    (rd : String) (hl : lookupTask s.tasks tid = some task) :
    lookupTask (pauseBody s tid rd).tasks tid
      = some { task with status := .paused, resumeData := some rd } := by
  unfold pauseBody persistTasks
  simp [lookupTask_updateTaskStatus, lookupTask_modifyTask, hl]

theorem lookup_resumeData_update (s : ManagerState) (tid : String)
    (st : DownloadStatus) (k : String) :
    (lookupTask (updateTaskStatus s tid st).tasks k).map DownloadTask.resumeData
      = (lookupTask s.tasks k).map DownloadTask.resumeData := by
  rw [lookupTask_updateTaskStatus]
  by_cases he : k = tid
  · rw [if_pos he, he]
    cases lookupTask s.tasks tid <;> rfl
  · rw [if_neg he]

theorem lookup_resumeData_modify (s : ManagerState) (tid : String)
    (f : DownloadTask → DownloadTask) (k : String)
    (hf : ∀ t, (f t).resumeData = t.resumeData) :
    (lookupTask (modifyTask s tid f).tasks k).map DownloadTask.resumeData
      = (lookupTask s.tasks k).map DownloadTask.resumeData := by
  rw [lookupTask_modifyTask]
  by_cases he : k = tid
  · rw [if_pos he, he]
    cases lookupTask s.tasks tid with
    | none => rfl
    | some t =>
        show some (f t).resumeData = some t.resumeData
        rw [hf]
  · rw [if_neg he]

/-- Claim C8 amended: a resume token appears only after a successful
pause and disappears only on completion.  Precisely: (1) in every state
reachable from a fresh manager, a Completed task carries no resume
token; (2) a successful pause of a downloading task stores the returned
token on the task; (3) `resume` never clears the token — a task leaving
Paused via resume (through Pending and a restarted transfer) retains it,
so that the restarted transfer can continue where it left off.  (The
original claim's "present only while Paused" is refuted by the
counterexample below.) -/
theorem C8_token_lifecycle :
    (∀ s, ReachableM s → ∀ tid t, lookupTask s.tasks tid = some t →
        t.status = .completed → t.resumeData = none)
    ∧ (∀ (s : ManagerState) (tid : String) (task : DownloadTask) (rd : String)
        (now : Nat) (s' : ManagerState), lookupTask s.tasks tid = some task →
        task.status = .downloading → tid ∈ s.downloads →
        pause s tid (some rd) now = .ok s' →
        (lookupTask s'.tasks tid).map DownloadTask.resumeData = some (some rd))
    ∧ (∀ (s : ManagerState) (tid : String) (online : Bool) (now : Nat)
        (s' : ManagerState), resume s tid online now = .ok s' →
        ∀ k, (lookupTask s'.tasks k).map DownloadTask.resumeData
          = (lookupTask s.tasks k).map DownloadTask.resumeData) := by
  refine ⟨?_, ?_, ?_⟩
  · intro s hreach tid t hl hc
    exact reachable_regInv hreach tid t hl hc
  · intro s tid task rd now s' hl hst hdl h
    rw [pause_of_some_ok rd now hl hst hdl] at h
    rw [← Except.ok.inj h, runQueue, pq_resumeData, pauseBody_lookup rd hl]
    rfl
  · intro s tid online now s' h k
    cases hlk : lookupTask s.tasks tid with
    | none =>
        rw [resume_of_none online now hlk] at h
        exact Except.noConfusion h
    | some task =>
        by_cases hst : task.status ≠ .paused ∧ task.status ≠ .failed
        · rw [resume_of_other online now hlk hst] at h
          rw [← Except.ok.inj h]
        · cases online with
          | false =>
              rw [resume_of_offline now hlk hst] at h
              exact Except.noConfusion h
          | true =>
              have hpf : task.status = .paused ∨ task.status = .failed := by
                rcases not_and_or.mp hst with h1 | h1
                · exact Or.inl (not_not.mp h1)
                · exact Or.inr (not_not.mp h1)
              rcases hpf with hp | hf2
              · rw [resume_of_paused now hlk hp] at h
                rw [← Except.ok.inj h, runQueue, pq_resumeData]
                unfold resumeBodyPaused
                show (lookupTask (updateTaskStatus s tid .pending).tasks k).map _ = _
                rw [lookup_resumeData_update]
              · rw [resume_of_failed now hlk hf2] at h
                rw [← Except.ok.inj h, runQueue, pq_resumeData]
                unfold resumeBodyFailed
                show (lookupTask (updateTaskStatus
                  (modifyTask s tid (fun t => { t with error := none }))
                  tid .pending).tasks k).map _ = _
                rw [lookup_resumeData_update, lookup_resumeData_modify]
                intro t
                rfl

/-- Harness glue: perform a `pause` call with a successful `pauseAsync`
returning the given resume data, keeping the state. -/
def tryPause (s : ManagerState) (tid rd : String) (now : Nat) : ManagerState :=
  match pause s tid (some rd) now with
  | .ok s' => s'
  | .error _ => s

/-- Harness glue: perform a `resume` call while online, keeping the
state. -/
def tryResume (s : ManagerState) (tid : String) (now : Nat) : ManagerState :=
  match resume s tid true now with
  | .ok s' => s'
  | .error _ => s

/-- Trace for the C8 counterexample: submit (admits immediately, task
starts downloading), pause with token "tok", resume while online. -/
def c8s1 : ManagerState :=
  trySubmit (initialManager 3 true) "https://x/a.mp4" "a.mp4" 0 "t1" 0

/-- After pausing the downloading task with resume data "tok". -/
def c8s2 : ManagerState := tryPause c8s1 "t1" "tok" 1

/-- After resuming: the task is re-admitted (Downloading again) and the
token is still attached. -/
def c8s3 : ManagerState := tryResume c8s2 "t1" 2

theorem c8s1_reachable : ReachableM c8s1 :=
  ReachableM.download "https://x/a.mp4" "a.mp4" 0 "t1" 0
    (ReachableM.init 3 true) (by rfl)

theorem c8s2_reachable : ReachableM c8s2 :=
  ReachableM.pause "t1" (some "tok") 1 c8s1_reachable (by rfl)

theorem c8s3_reachable : ReachableM c8s3 :=
  ReachableM.resume "t1" true 2 c8s2_reachable (by rfl)

/-- Counterexample to claim C8 as stated: in the reachable state after
submit → pause(token "tok") → resume, the task is Downloading (not
Paused) yet still carries the resume token — the token is NOT cleared
when the task leaves Paused via resume. -/
theorem C8_counterexample :
    ReachableM c8s3
    ∧ (lookupTask c8s3.tasks "t1").map DownloadTask.status
        = some DownloadStatus.downloading
    ∧ (lookupTask c8s3.tasks "t1").map DownloadTask.resumeData = some (some "tok")
    ∧ DownloadStatus.downloading ≠ DownloadStatus.paused :=
  ⟨c8s3_reachable, by decide, by decide, by decide⟩

/-- Witness for the amended C8: completing the resumed concrete trace
yields a Completed task whose token has been cleared, by part (1) of the
theorem applied to the reachable state after delivery of the transfer
success. -/
theorem C8_token_lifecycle_witness :
    (lookupTask (deliverSuccess c8s3 "t1" 3).tasks "t1").map DownloadTask.resumeData
      = some none := by
  have hreach : ReachableM (deliverSuccess c8s3 "t1" 3) :=
    ReachableM.success "t1" 3 c8s3_reachable (by decide)
  have hst : (lookupTask (deliverSuccess c8s3 "t1" 3).tasks "t1").map
      DownloadTask.status = some DownloadStatus.completed := by decide
  cases hl : lookupTask (deliverSuccess c8s3 "t1" 3).tasks "t1" with
  | none => rw [hl] at hst; exact Option.noConfusion hst
  | some t =>
      rw [hl] at hst
      have hres := C8_token_lifecycle.1 _ hreach "t1" t hl (Option.some.inj hst)
      show some t.resumeData = some none
      rw [hres]

end ExpoDownload
